import Mathlib

/-!
A shallow embedding of the glue compiler of the spicy-plugin repository
(`src/src/compiler/glue-compiler.cc`) and parts of its runtime support
(`src/src/plugin/runtime-support.cc`), together with theorems checking the
natural-language specification against the code.

Conventions of the embedding:
* `std::string` chunks become `List Char`, cursors become `Nat` indices;
  `chunk[i]` at `i = size` yields `'\x00'` as in `std::string::operator[]`.
* C++ exceptions become `Except String` results carrying the message.
* `while` loops whose cursor provably advances are written as structural
  recursion over an explicit step budget; budgets are chosen large enough
  (at least the chunk length) that they cannot run out on those loops.
  The one loop of the source that can actually fail to terminate
  (the port-range expansion loop) is modelled with an explicit budget and
  `Option`, where `none` on every budget witnesses the divergence.
-/

namespace SpicyGlue

/-- `isspace` of the C locale, as used by the scanner. -/
def cIsSpace (c : Char) : Bool :=
  c = ' ' || c = '\t' || c = '\n' || c = '\x0b' || c = '\x0c' || c = '\r'

/-- `isdigit` of the C locale. -/
def cIsDigit (c : Char) : Bool :=
  '0' ≤ c && c ≤ '9'

/-- `isalnum` of the C locale (ASCII letters and digits). -/
def cIsAlnum (c : Char) : Bool :=
  cIsDigit c || ('a' ≤ c && c ≤ 'z') || ('A' ≤ c && c ≤ 'Z')

/-- `chunk[i]`: defined for `i < size`, and `'\x00'` at `i = size` as for
`std::string`. -/
def cget (c : List Char) (i : Nat) : Char :=
  c.getD i '\x00'

/-- The slice `chunk.substr(a, b - a)`. -/
def slice (c : List Char) (a b : Nat) : List Char :=
  (c.drop a).take (b - a)

/-- `hilti::util::trim`: strip leading and trailing whitespace. -/
def trimChars (c : List Char) : List Char :=
  ((c.dropWhile (cIsSpace ·)).reverse.dropWhile (cIsSpace ·)).reverse

/-- `hilti::util::trim` on strings. -/
def trimS (s : String) : String :=
  String.mk (trimChars s.toList)

/-- `hilti::util::startsWith` (string prefix test, written over the
character list so that it computes by kernel reduction). -/
def sStartsWith (s pre : String) : Bool :=
  pre.toList.isPrefixOf s.toList

/-- One pass of `eat_spaces`, with a step budget (the budget is only a
termination device; `eat_spaces` supplies `c.length`, which the loop can
never exhaust because the cursor advances while below the length). -/
def eat_spaces_go (c : List Char) : Nat → Nat → Nat
  | 0, i => i
  | k + 1, i => if i < c.length ∧ cIsSpace (cget c i) then eat_spaces_go c k (i + 1) else i

/-- `eat_spaces(chunk, &i)`: advance the cursor past whitespace. -/
def eat_spaces (c : List Char) (i : Nat) : Nat :=
  eat_spaces_go c c.length i

/-- The matching loop of `looking_at`: consume the token characters one by
one, returning 0 on a mismatch and the cursor after the token otherwise. -/
def looking_at_go (c : List Char) : Nat → List Char → Nat
  | i, [] => i
  | i, t :: ts => if i < c.length ∧ cget c i = t then looking_at_go c (i + 1) ts else 0

/-- `looking_at(chunk, i, token)`: skip whitespace, then match `token`;
returns 0 on failure, the position after the token on success. -/
def looking_at (c : List Char) (i : Nat) (tok : String) : Nat :=
  looking_at_go c (eat_spaces c i) tok.toList

/-- `eat_token(chunk, &i, token)`: like `looking_at` but a failure throws a
parse error. -/
def eat_token (c : List Char) (i : Nat) (tok : String) : Except String Nat :=
  let i' := eat_spaces c i
  let j := looking_at c i' tok
  if j = 0 then .error ("expected token " ++ tok) else .ok j

/-- `is_id_char(chunk, i)`: alphanumeric, one of `_$%`, or a `:` adjacent to
another `:`. Call sites ensure `i < chunk.size()`. -/
def is_id_char (c : List Char) (i : Nat) : Bool :=
  let ch := cget c i
  if cIsAlnum ch then true
  else if ch = '_' || ch = '$' || ch = '%' then true
  else
    let prev := if i > 0 then cget c (i - 1) else '\x00'
    let next := if i + 1 < c.length then cget c (i + 1) else '\x00'
    (ch = ':' && next = ':') || (ch = ':' && prev = ':')

/-- `is_path_char(chunk, i)`: any character that is neither whitespace nor
`;`. -/
def is_path_char (c : List Char) (i : Nat) : Bool :=
  !cIsSpace (cget c i) && cget c i ≠ ';'

/-- The scanning loop `while (j < chunk.size() && p(chunk, j)) ++j`, with a
step budget (`c.length` always suffices). -/
def scan_go (c : List Char) (p : List Char → Nat → Bool) : Nat → Nat → Nat
  | 0, j => j
  | k + 1, j => if j < c.length ∧ p c j then scan_go c p k (j + 1) else j

/-- Scan from `j` while the predicate holds. -/
def scanWhile (c : List Char) (p : List Char → Nat → Bool) (j : Nat) : Nat :=
  scan_go c p c.length j

/-- `hilti::util::replace(id, "%", "0x25_")` for the captured identifier. -/
def replacePercent : List Char → List Char
  | [] => []
  | '%' :: rest => '0' :: 'x' :: '2' :: '5' :: '_' :: replacePercent rest
  | ch :: rest => ch :: replacePercent rest

/-- `extract_id(chunk, &i)`: a nonempty run of identifier characters, with
`%` re-encoded as `0x25_`. -/
def extract_id (c : List Char) (i : Nat) : Except String (String × Nat) :=
  let i' := eat_spaces c i
  let j := scanWhile c is_id_char i'
  if i' = j then .error "expected id"
  else .ok (String.mk (replacePercent (slice c i' j)), j)

/-- `extract_path(chunk, &i)`: a nonempty run of non-whitespace, non-`;`
characters. -/
def extract_path (c : List Char) (i : Nat) : Except String (String × Nat) :=
  let i' := eat_spaces c i
  let j := scanWhile c is_path_char i'
  if i' = j then .error "expected path"
  else .ok (String.mk (slice c i' j), j)

/-- The numeric value of a digit string (most significant first). -/
def digitsVal (ds : List Char) : Nat :=
  ds.foldl (fun a c => a * 10 + (c.toNat - 48)) 0

/-- Modelled external helper: `hilti::util::atoi_n(begin, end, 10, &result)`
is part of the hilti support library, not of this repository. It consumes an
optional leading `-` (it has no case for `+`), then base-10 digits, and
throws `cannot decode number` when no digit was consumed; the thrown error
is not a parse error of this repository's scanner. Values are modelled as
unbounded integers. -/
def atoi_n_dec (s : List Char) : Except String Int :=
  let neg : Bool := s.head? == some '-'
  let body := if neg then s.drop 1 else s
  let digits := body.takeWhile (cIsDigit ·)
  if digits.isEmpty then .error "cannot decode number"
  else
    let n : Int := (digitsVal digits : Nat)
    .ok (if neg then -n else n)

/-- `extract_int(chunk, &i)`: skip whitespace; consume an optional `-`, then
(independently) an optional `+`, then decimal digits; if no character at all
was consumed, throw `expected integer`; otherwise hand the consumed token to
the number conversion. Note the two independent sign tests of the source:
a lone sign, or a `-` followed by a `+`, passes the scan. -/
def extract_int (c : List Char) (i : Nat) : Except String (Int × Nat) :=
  let i0 := eat_spaces c i
  let j1 :=
    if i0 < c.length then
      let ja := if cget c i0 = '-' then i0 + 1 else i0
      if cget c ja = '+' then ja + 1 else ja
    else i0
  let j := scanWhile c (fun c j => cIsDigit (cget c j)) j1
  if i0 = j then .error "expected integer"
  else
    match atoi_n_dec (slice c i0 j) with
    | .error e => .error e
    | .ok v => .ok (v, j)

/-- The transport protocols accepted in `.evt` files. -/
inductive Proto where
  | TCP
  | UDP
  | ICMP
deriving DecidableEq, Repr

/-- A parsed port: number and transport. -/
abbrev Port := Nat × Proto

/-- `extract_port(chunk, &i)`: decimal digits (value reduced mod `2^64` as
for the `uint64_t` accumulator), at most 65535, then `/`, then one of
`tcp`, `udp`, `icmp`. -/
def extract_port (c : List Char) (i : Nat) : Except String (Port × Nat) :=
  let i0 := eat_spaces c i
  let j := scanWhile c (fun c j => cIsDigit (cget c j)) i0
  if i0 = j then .error "cannot parse port specification"
  else
    let port := digitsVal (slice c i0 j) % (2 ^ 64)
    if port > 65535 then .error "port outside of valid range"
    else if cget c j ≠ '/' then .error "cannot parse port specification"
    else
      let i1 := j + 1
      if looking_at c i1 "tcp" ≠ 0 then
        (eat_token c i1 "tcp").map (fun i2 => ((port, .TCP), i2))
      else if looking_at c i1 "udp" ≠ 0 then
        (eat_token c i1 "udp").map (fun i2 => ((port, .UDP), i2))
      else if looking_at c i1 "icmp" ≠ 0 then
        (eat_token c i1 "icmp").map (fun i2 => ((port, .ICMP), i2))
      else .error "cannot parse port specification"

/-- The expansion loop of `extract_ports`. The loop counter is a `uint16_t`
(wrap-around at `2^16`); the loop condition `!end || port <= end->port()` is
evaluated before each body, the body appends the port and exits right away
when no range end was given. `none` means the step budget ran out, i.e. the
loop has not finished within `fuel` iterations. -/
def portLoop (proto : Proto) : Nat → Nat → Option Nat → List Port → Option (List Port)
  | 0, _, _, _ => none
  | fuel + 1, port, endp, acc =>
    match endp with
    | none => some (acc ++ [(port, proto)])
    | some e =>
      if port ≤ e then portLoop proto fuel ((port + 1) % 65536) endp (acc ++ [(port, proto)])
      else some acc

/-- `extract_ports(chunk, &i)`: a port, optionally followed by `-` and a
second port; range endpoints must share the transport and be ordered; the
range is then expanded by `portLoop`. The outer `Option` is `none` exactly
when the expansion loop exceeds the step budget. -/
def extract_ports (fuel : Nat) (c : List Char) (i : Nat) :
    Option (Except String (List Port × Nat)) :=
  match extract_port c i with
  | .error e => some (.error e)
  | .ok ((sp, sproto), i1) =>
    if looking_at c i1 "-" ≠ 0 then
      match eat_token c i1 "-" with
      | .error e => some (.error e)
      | .ok i2 =>
        match extract_port c i2 with
        | .error e => some (.error e)
        | .ok ((ep, eproto), i3) =>
          if sproto ≠ eproto then
            some (.error "start and end of port range must have same protocol")
          else if sp > ep then
            some (.error "start of port range cannot be after its end")
          else
            match portLoop sproto fuel sp (some ep) [] with
            | none => none
            | some res => some (.ok (res, i3))
    else
      match portLoop sproto fuel sp none [] with
      | none => none
      | some res => some (.ok (res, i1))

/-! Chunk scanner (`GlueCompiler::getNextEvtBlock`). -/

/-- The scanner state of `getNextEvtBlock`. -/
inductive ScanState where
  | Default
  | InComment
  | InString
deriving DecidableEq, Repr

/-- `GlueCompiler::getNextEvtBlock`: read characters until an unescaped `;`
outside strings and comments. The input stream is a `List Char`; on success
the function also returns the unread remainder of the stream (the C++
version leaves it in the `istream`). An empty returned chunk means the
legitimate end of data. -/
def getNextEvtBlock : List Char → ScanState → Char → List Char → Nat →
    Except String (String × List Char × Nat)
  | [], _, _, chunk, lineno =>
    if (trimChars chunk).isEmpty then .ok ("", [], lineno)
    else .error "unexpected end of file"
  | cur :: rest, state, prev, chunk, lineno =>
    match state with
    | .Default =>
      let state1 := if cur = '"' ∧ prev ≠ '\\' then ScanState.InString else ScanState.Default
      if cur = '#' ∧ prev ≠ '\\' then
        getNextEvtBlock rest .InComment prev chunk lineno
      else
        let lineno1 := if cur = '\n' then lineno + 1 else lineno
        if cur = ';' then
          let c := trimChars chunk
          if c.length ≠ 0 then .ok (String.mk (c ++ [';']), rest, lineno1)
          else .error "empty block"
        else
          getNextEvtBlock rest state1 cur (chunk ++ [cur]) lineno1
    | .InString =>
      let state1 := if cur = '"' ∧ prev ≠ '\\' then ScanState.Default else ScanState.InString
      let lineno1 := if cur = '\n' then lineno + 1 else lineno
      getNextEvtBlock rest state1 cur (chunk ++ [cur]) lineno1
    | .InComment =>
      if cur ≠ '\n' then
        getNextEvtBlock rest .InComment prev chunk lineno
      else
        getNextEvtBlock rest .Default cur (chunk ++ [cur]) (lineno + 1)

/-! Conditional preprocessor (`GlueCompiler::preprocessEvtFile`).

The line processor `hilti::util::SourceCodePreprocessor` is part of the
hilti support library, not of this repository; the embedding is
parameterised over an arbitrary implementation of its interface
(`processLine`, `state`, `expectingDirective`). -/

/-- The inclusion state exposed by the external preprocessor. -/
inductive PPMode where
  | Include
  | Skip
deriving DecidableEq, Repr

/-- Interface of the external `hilti::util::SourceCodePreprocessor` over an
abstract internal state `σ`. -/
structure PP (σ : Type) where
  processLine : σ → String → String → Except String σ
  mode : σ → PPMode
  expectingDirective : σ → Bool

/-- `hilti::util::split1`: split at the first whitespace run into
(first word, rest). -/
def split1 (s : String) : String × String :=
  let l := s.toList
  let w := l.takeWhile (fun c => !cIsSpace c)
  let r := (l.drop w.length).dropWhile (cIsSpace ·)
  (String.mk w, String.mk r)

/-- `GlueCompiler::preprocessEvtFile` on a list of input lines: a directive
line (trimmed form starting with `@`) emits a blank line and feeds the
directive to the preprocessor; other lines are copied in `Include` state and
blanked in `Skip` state. At end of input an unterminated directive is an
error. Output lines are only observable on success (the C++ version writes
to a stream that the caller discards when the function throws). -/
def preprocessEvtFile {σ : Type} (pp : PP σ) : σ → List String → Except String (List String)
  | st, [] =>
    if pp.expectingDirective st then .error "unterminated preprocessor directive"
    else .ok []
  | st, line :: rest =>
    let trimmed := trimS line
    if sStartsWith trimmed "@" then
      match pp.processLine st (split1 trimmed).1 (split1 trimmed).2 with
      | .error e => .error e
      | .ok st' =>
        match preprocessEvtFile pp st' rest with
        | .error e => .error e
        | .ok out => .ok ("" :: out)
    else
      match pp.mode st with
      | .Include =>
        match preprocessEvtFile pp st rest with
        | .error e => .error e
        | .ok out => .ok (line :: out)
      | .Skip =>
        match preprocessEvtFile pp st rest with
        | .error e => .error e
        | .ok out => .ok ("" :: out)

/-! Expression extractor and statement parsers. -/

/-- The bracket-balanced scanning loop of `extract_expr`. The cursor
advances on every step that neither finishes nor errors, so the budget
`c.length + 1` supplied by `extract_expr` can never run out. -/
def extract_expr_go (c : List Char) : Nat → Nat → Nat → Except String Nat
  | 0, _, _ => .error "expression budget exhausted"
  | k + 1, level, j =>
    if j < c.length then
      let ch := cget c j
      if ch = '(' ∨ ch = '[' ∨ ch = '\x7b' then extract_expr_go c k (level + 1) (j + 1)
      else if ch = ')' then
        if level = 0 then .ok j else extract_expr_go c k (level - 1) (j + 1)
      else if ch = ']' ∨ ch = '\x7d' then
        if level = 0 then .error "expected Spicy expression"
        else extract_expr_go c k (level - 1) (j + 1)
      else if ch = ',' then
        if level = 0 then .ok j else extract_expr_go c k level (j + 1)
      else extract_expr_go c k level (j + 1)
    else .ok j

/-- `extract_expr(chunk, &i)`: a bracket-balanced run terminated by a
top-level `,` or `)`; the result is trimmed. -/
def extract_expr (c : List Char) (i : Nat) : Except String (String × Nat) :=
  let i' := eat_spaces c i
  match extract_expr_go c (c.length + 1) 0 i' with
  | .error e => .error e
  | .ok j => .ok (String.mk (trimChars (slice c i' j)), j)

/-- `hilti::util::tolower` on an ASCII character. -/
def tolowerChar (c : Char) : Char :=
  if 'A' ≤ c && c ≤ 'Z' then Char.ofNat (c.toNat + 32) else c

/-- `hilti::util::tolower` on a string. -/
def tolowerS (s : String) : String :=
  String.mk (s.toList.map tolowerChar)

/-- `glue::ProtocolAnalyzer`. `hilti::ID` members are modelled as strings
where the empty string is the unset id (matching `ID`'s boolean
conversion); `protocol` is `none` until the `over` clause assigns it.
Source locations, being diagnostic metadata, are not modelled. -/
structure ProtocolAnalyzer where
  name : String
  protocol : Option Proto
  unit_name_orig : String
  unit_name_resp : String
  ports : List Port
  replaces : String
deriving Repr, DecidableEq

/-- `glue::FileAnalyzer` (locations not modelled). -/
structure FileAnalyzer where
  name : String
  unit_name : String
  mime_types : List String
  replaces : String
deriving Repr, DecidableEq

/-- `glue::PacketAnalyzer` (locations not modelled). -/
structure PacketAnalyzer where
  name : String
  unit_name : String
  replaces : String
deriving Repr, DecidableEq

/-- The `{type, module_id, module_path}` record returned by the driver's
type lookup. The type component is reduced to whether it is a unit type,
which is all the glue compiler inspects of it here. -/
structure TypeInfo where
  isUnit : Bool
  module_id : String
  module_path : String
deriving Repr, DecidableEq

/-- `glue::Event` (locations not modelled). -/
structure Event where
  name : String
  path : String
  exprs : List String
  condition : String
  priority : Int
  file : String
  unit : String
  hook : String
  unit_type : Option TypeInfo
  unit_module_id : String
  unit_module_path : String
  spicy_module : Option String
  expression_accessors : List (Nat × String)
deriving Repr, DecidableEq

/-- Result monad of the statement parsers: a parse error (thrown
`ParseError`), or `none` when a step budget ran out. The budgets passed
below are generous enough that, the cursor advancing on every loop
iteration of the source, they cannot run out — with the single exception
of the port-range expansion loop, whose divergence `none` faithfully
propagates. -/
abbrev PRes (α : Type) := ExceptT String Option α

/-- Lift an infallible-termination extractor into `PRes`. -/
def liftE {α : Type} (x : Except String α) : PRes α := ExceptT.mk (some x)

/-- Budget exhaustion. -/
def noFuel {α : Type} : PRes α := ExceptT.mk none

/-- The parse direction of a `parse …` clause. -/
inductive Dir where
  | orig
  | resp
  | both

/-- The inner `ports { … }` loop of `parseProtocolAnalyzer`. -/
def parsePA_ports_loop (c : List Char) : Nat → Nat → ProtocolAnalyzer →
    PRes (ProtocolAnalyzer × Nat)
  | 0, _, _ => noFuel
  | fuel + 1, i, a => do
    let (ports, i) ← ExceptT.mk (extract_ports 65537 c i)
    let a := { a with ports := a.ports ++ ports }
    if looking_at c i "\x7d" ≠ 0 then do
      let i ← liftE (eat_token c i "\x7d")
      pure (a, i)
    else do
      let i ← liftE (eat_token c i ",")
      parsePA_ports_loop c fuel i a

/-- The clause loop of `parseProtocolAnalyzer`. -/
def parsePA_clause_loop (c : List Char) : Nat → Nat → ProtocolAnalyzer →
    PRes (ProtocolAnalyzer × Nat)
  | 0, _, _ => noFuel
  | fuel + 1, i, a => do
    let (a, i) ←
      if looking_at c i "parse" ≠ 0 then do
        let i ← liftE (eat_token c i "parse")
        let (dir, i) ←
          if looking_at c i "originator" ≠ 0 then do
            let i ← liftE (eat_token c i "originator")
            pure (Dir.orig, i)
          else if looking_at c i "responder" ≠ 0 then do
            let i ← liftE (eat_token c i "responder")
            pure (Dir.resp, i)
          else if looking_at c i "with" ≠ 0 then
            pure (Dir.both, i)
          else throw "invalid \"parse with ...\" specification"
        let i ← liftE (eat_token c i "with")
        let (unit, i) ← liftE (extract_id c i)
        let a :=
          match dir with
          | .orig => { a with unit_name_orig := unit }
          | .resp => { a with unit_name_resp := unit }
          | .both => { a with unit_name_orig := unit, unit_name_resp := unit }
        pure (a, i)
      else if looking_at c i "ports" ≠ 0 then do
        let i ← liftE (eat_token c i "ports")
        let i ← liftE (eat_token c i "\x7b")
        parsePA_ports_loop c fuel i a
      else if looking_at c i "port" ≠ 0 then do
        let i ← liftE (eat_token c i "port")
        let (ports, i) ← ExceptT.mk (extract_ports 65537 c i)
        pure ({ a with ports := a.ports ++ ports }, i)
      else if looking_at c i "replaces" ≠ 0 then do
        let i ← liftE (eat_token c i "replaces")
        let (r, i) ← liftE (extract_id c i)
        pure ({ a with replaces := r }, i)
      else throw "unexpect token"
    if looking_at c i ";" ≠ 0 then pure (a, i)
    else do
      let i ← liftE (eat_token c i ",")
      parsePA_clause_loop c fuel i a

/-- `GlueCompiler::parseProtocolAnalyzer`. -/
def parseProtocolAnalyzer (c : List Char) : PRes ProtocolAnalyzer := do
  let i ← liftE (eat_token c 0 "protocol")
  let i ← liftE (eat_token c i "analyzer")
  let (name, i) ← liftE (extract_id c i)
  let i ← liftE (eat_token c i "over")
  let (protoId, i) ← liftE (extract_id c i)
  let proto := tolowerS protoId
  let p ←
    if proto = "tcp" then pure Proto.TCP
    else if proto = "udp" then pure Proto.UDP
    else if proto = "icmp" then pure Proto.ICMP
    else throw ("unknown transport protocol " ++ proto)
  let i ← liftE (eat_token c i ":")
  let (a, _) ← parsePA_clause_loop c (2 * c.length + 8) i
    { name := name, protocol := some p, unit_name_orig := "", unit_name_resp := "",
      ports := [], replaces := "" }
  pure a

/-- The clause loop of `parseFileAnalyzer`. -/
def parseFA_clause_loop (c : List Char) : Nat → Nat → FileAnalyzer →
    PRes (FileAnalyzer × Nat)
  | 0, _, _ => noFuel
  | fuel + 1, i, a => do
    let (a, i) ←
      if looking_at c i "parse" ≠ 0 then do
        let i ← liftE (eat_token c i "parse")
        let i ← liftE (eat_token c i "with")
        let (unit, i) ← liftE (extract_id c i)
        pure ({ a with unit_name := unit }, i)
      else if looking_at c i "mime-type" ≠ 0 then do
        let i ← liftE (eat_token c i "mime-type")
        let (mtype, i) ← liftE (extract_path c i)
        pure ({ a with mime_types := a.mime_types ++ [mtype] }, i)
      else if looking_at c i "replaces" ≠ 0 then do
        let i ← liftE (eat_token c i "replaces")
        let (r, i) ← liftE (extract_id c i)
        pure ({ a with replaces := r }, i)
      else throw "unexpect token"
    if looking_at c i ";" ≠ 0 then pure (a, i)
    else do
      let i ← liftE (eat_token c i ",")
      parseFA_clause_loop c fuel i a

/-- `GlueCompiler::parseFileAnalyzer`. -/
def parseFileAnalyzer (c : List Char) : PRes FileAnalyzer := do
  let i ← liftE (eat_token c 0 "file")
  let i ← liftE (eat_token c i "analyzer")
  let (name, i) ← liftE (extract_id c i)
  let i ← liftE (eat_token c i ":")
  let (a, _) ← parseFA_clause_loop c (2 * c.length + 8) i
    { name := name, unit_name := "", mime_types := [], replaces := "" }
  pure a

/-- The clause loop of `parsePacketAnalyzer`; `replaces` requires host
version ≥ 5.2. -/
def parsePKA_clause_loop (c : List Char) (zv : Int) : Nat → Nat → PacketAnalyzer →
    PRes (PacketAnalyzer × Nat)
  | 0, _, _ => noFuel
  | fuel + 1, i, a => do
    let (a, i) ←
      if looking_at c i "parse" ≠ 0 then do
        let i ← liftE (eat_token c i "parse")
        let i ← liftE (eat_token c i "with")
        let (unit, i) ← liftE (extract_id c i)
        pure ({ a with unit_name := unit }, i)
      else if looking_at c i "replaces" ≠ 0 then do
        if zv < 50200 then
          throw "packet analyzer replacement requires Zeek 5.2+"
        else do
          let i ← liftE (eat_token c i "replaces")
          let (r, i) ← liftE (extract_id c i)
          pure ({ a with replaces := r }, i)
      else throw "unexpect token"
    if looking_at c i ";" ≠ 0 then pure (a, i)
    else do
      let i ← liftE (eat_token c i ",")
      parsePKA_clause_loop c zv fuel i a

/-- `GlueCompiler::parsePacketAnalyzer`. -/
def parsePacketAnalyzer (zv : Int) (c : List Char) : PRes PacketAnalyzer := do
  let i ← liftE (eat_token c 0 "packet")
  let i ← liftE (eat_token c i "analyzer")
  let (name, i) ← liftE (extract_id c i)
  let i ← liftE (eat_token c i ":")
  let (a, _) ← parsePKA_clause_loop c zv (2 * c.length + 8) i
    { name := name, unit_name := "", replaces := "" }
  pure a

/-- The argument loop of `parseEvent`: arguments separated by `,` until a
closing `)`. -/
def parseEvent_args_loop (c : List Char) : Nat → Nat → List String → Bool →
    PRes (List String × Nat)
  | 0, _, _, _ => noFuel
  | fuel + 1, i, acc, first =>
    let j := looking_at c i ")"
    if j ≠ 0 then pure (acc, j)
    else do
      let i ← if first then pure i else liftE (eat_token c i ",")
      let (expr, i) ← liftE (extract_expr c i)
      parseEvent_args_loop c fuel i (acc ++ [expr]) false

/-- `GlueCompiler::parseEvent`: `on PATH [if (EXPR)] -> event ID(EXPR, …)
[&priority=INT];` with default priority `-1000`. -/
def parseEvent (c : List Char) : PRes Event := do
  let i ← liftE (eat_token c 0 "on")
  let (path, i) ← liftE (extract_id c i)
  let (condition, i) ←
    if looking_at c i "if" ≠ 0 then do
      let i ← liftE (eat_token c i "if")
      let i ← liftE (eat_token c i "(")
      let (cond, i) ← liftE (extract_expr c i)
      let i ← liftE (eat_token c i ")")
      pure (cond, i)
    else pure ("", i)
  let i ← liftE (eat_token c i "->")
  let i ← liftE (eat_token c i "event")
  let (name, i) ← liftE (extract_id c i)
  let i ← liftE (eat_token c i "(")
  let (exprs, i) ← parseEvent_args_loop c (2 * c.length + 8) i [] true
  let (priority, i) ←
    if looking_at c i "&priority" ≠ 0 then do
      let i ← liftE (eat_token c i "&priority")
      let i ← liftE (eat_token c i "=")
      let (p, i) ← liftE (extract_int c i)
      pure (p, i)
    else pure ((-1000 : Int), i)
  let i ← liftE (eat_token c i ";")
  let i := eat_spaces c i
  if i < c.length then throw "unexpected characters at end of line"
  else
    pure { name := name, path := path, exprs := exprs, condition := condition,
           priority := priority, file := "", unit := "", hook := "", unit_type := none,
           unit_module_id := "", unit_module_path := "", spicy_module := none,
           expression_accessors := [] }

/-! Declaration store and `GlueCompiler::loadEvtFile`. -/

/-- The declaration store of the glue compiler: the ordered lists
`_protocol_analyzers`, `_file_analyzers`, `_packet_analyzers`, `_events`,
`_imports`, `_exports`, and the ids of the registered Spicy modules
(`_spicy_modules`). -/
structure GlueState where
  protocol_analyzers : List ProtocolAnalyzer
  file_analyzers : List FileAnalyzer
  packet_analyzers : List PacketAnalyzer
  events : List Event
  imports : List (String × Option String)
  exports : List String
  spicy_modules : List String
deriving Repr, DecidableEq

/-- The inline `import MODULE [from SCOPE];` parser of the chunk loop. -/
def parseImportChunk (c : List Char) : PRes (String × Option String) := do
  let i ← liftE (eat_token c 0 "import")
  let (module, i) ← liftE (extract_id c i)
  if looking_at c i "from" ≠ 0 then do
    let i ← liftE (eat_token c i "from")
    let (scope, _) ← liftE (extract_path c i)
    pure (module, some scope)
  else
    pure (module, none)

/-- The inline `export ID;` parser of the chunk loop (`newExport` notifies
the driver and does not change the store modelled here). -/
def parseExportChunk (c : List Char) : PRes String := do
  let i ← liftE (eat_token c 0 "export")
  let (id, _) ← liftE (extract_id c i)
  pure id

/-- The chunk loop of `loadEvtFile`: read chunks, dispatch on the leading
token, and accumulate declarations. Parsed events are buffered in the local
`new_events` list and appended to the store only when the whole file has
parsed; all other declarations go to the store at once. A parse error is
caught and yields `(false, current store)`. `none` means a step budget ran
out (or the port-range expansion diverged). -/
def loadLoop (zv : Int) (file : String) :
    Nat → List Char → Nat → GlueState → List Event → Option (Bool × GlueState)
  | 0, _, _, _, _ => none
  | fuel + 1, stream, lineno, g, newEvents =>
    match getNextEvtBlock stream .Default '\x00' [] lineno with
    | .error _ => some (false, g)
    | .ok (chunk, rest, lineno') =>
      if chunk.isEmpty then some (true, { g with events := g.events ++ newEvents })
      else
        let c := chunk.toList
        if looking_at c 0 "protocol" ≠ 0 then
          match (parseProtocolAnalyzer c).run with
          | none => none
          | some (.error _) => some (false, g)
          | some (.ok a) =>
            loadLoop zv file fuel rest lineno'
              { g with protocol_analyzers := g.protocol_analyzers ++ [a] } newEvents
        else if looking_at c 0 "file" ≠ 0 then
          match (parseFileAnalyzer c).run with
          | none => none
          | some (.error _) => some (false, g)
          | some (.ok a) =>
            loadLoop zv file fuel rest lineno'
              { g with file_analyzers := g.file_analyzers ++ [a] } newEvents
        else if looking_at c 0 "packet" ≠ 0 then
          match (parsePacketAnalyzer zv c).run with
          | none => none
          | some (.error _) => some (false, g)
          | some (.ok a) =>
            loadLoop zv file fuel rest lineno'
              { g with packet_analyzers := g.packet_analyzers ++ [a] } newEvents
        else if looking_at c 0 "on" ≠ 0 then
          match (parseEvent c).run with
          | none => none
          | some (.error _) => some (false, g)
          | some (.ok ev) =>
            loadLoop zv file fuel rest lineno' g (newEvents ++ [{ ev with file := file }])
        else if looking_at c 0 "import" ≠ 0 then
          match (parseImportChunk c).run with
          | none => none
          | some (.error _) => some (false, g)
          | some (.ok imp) =>
            loadLoop zv file fuel rest lineno'
              { g with imports := g.imports ++ [imp] } newEvents
        else if looking_at c 0 "export" ≠ 0 then
          match (parseExportChunk c).run with
          | none => none
          | some (.error _) => some (false, g)
          | some (.ok id) =>
            loadLoop zv file fuel rest lineno'
              { g with exports := g.exports ++ [id] } newEvents
        else
          some (false, g)

/-- `GlueCompiler::loadEvtFile`: preprocess the file's lines (a preprocessor
error is caught like a parse error, leaving the store unchanged), then run
the chunk loop on the preprocessed stream starting at line 1. -/
def loadEvtFile {σ : Type} (pp : PP σ) (st : σ) (zv : Int) (fuel : Nat) (file : String)
    (lines : List String) (g : GlueState) : Option (Bool × GlueState) :=
  match preprocessEvtFile pp st lines with
  | .error _ => some (false, g)
  | .ok out =>
    let stream := (String.join (out.map (fun l => l ++ "\n"))).toList
    loadLoop zv file fuel stream 1 g []

/-! Event resolver (`GlueCompiler::PopulateEvents`). -/

/-- Modelled from the spec: the driver's `lookupType(id)` interface
(`Driver` is part of this repository but outside the sources given here).
It is an abstract, idempotent map from qualified ids to
`{type, moduleId, modulePath}` records. -/
structure Driver where
  lookup : String → Option TypeInfo

/-- Modelled from the spec: the driver's `lookupType<Unit>(id)` — as
`lookupType`, additionally enforcing that the found type is a unit type. -/
def lookupTypeUnit (d : Driver) (id : String) : Option TypeInfo :=
  match d.lookup id with
  | some ti => if ti.isUnit then some ti else none
  | none => none

/-- Position of the last `::` separator of a qualified id, if any. -/
def lastSep (l : List Char) : Option Nat :=
  (List.range l.length).foldl
    (fun acc i =>
      if cget l i = ':' ∧ cget l (i + 1) = ':' ∧ i + 1 < l.length then some i else acc)
    none

/-- `hilti::ID::namespace_()`: everything before the last `::` (empty when
there is none). -/
def idNamespace (s : String) : String :=
  match lastSep s.toList with
  | some i => String.mk (s.toList.take i)
  | none => ""

/-- `hilti::ID::local()`: everything after the last `::`. -/
def idLocal (s : String) : String :=
  match lastSep s.toList with
  | some i => String.mk (s.toList.drop (i + 2))
  | none => s

/-- The common tail of `PopulateEvents` for one event: store the unit type
and its module, locate the Spicy module (its absence is an internal error,
modelled as failure), and number the accessor expressions 1..N. -/
def finishEvent (mods : List String) (ui : TypeInfo) (ev : Event) : Option Event :=
  if ui.module_id ∈ mods then
    some { ev with
            unit_type := some ui
            unit_module_id := ui.module_id
            unit_module_path := ui.module_path
            spicy_module := some ui.module_id
            expression_accessors := ev.exprs.enum.map (fun p => (p.1 + 1, p.2)) }
  else none

/-- `PopulateEvents` on a single event: skip already-populated events;
otherwise resolve `path` directly to a unit type (hook `unit::0x25_done`),
or fall back to `path`'s namespace (hook `path`), failing when the
namespace is empty, unknown, or not a unit type. -/
def populateEvent1 (d : Driver) (mods : List String) (ev : Event) : Option Event :=
  if ev.unit_type.isSome then some ev
  else
    match lookupTypeUnit d ev.path with
    | some ui =>
      finishEvent mods ui { ev with unit := ev.path, hook := ev.path ++ "::0x25_done" }
    | none =>
      let u := idNamespace ev.path
      if u = "" then none
      else
        match d.lookup u with
        | some ui =>
          if ui.isUnit then finishEvent mods ui { ev with unit := u, hook := ev.path }
          else none
        | none => none

/-- `GlueCompiler::PopulateEvents` over the event store. -/
def populateEvents (d : Driver) (mods : List String) : List Event → Option (List Event)
  | [] => some []
  | ev :: rest =>
    match populateEvent1 d mods ev with
    | none => none
    | some ev' =>
      match populateEvents d mods rest with
      | none => none
      | some rest' => some (ev' :: rest')

/-! Type projector (`VisitorZeekType` / `GlueCompiler::createZeekType`). -/

/-- A unit item as seen by `VisitorUnitFields`: a parse field (skipped when
transient or of void parse type, otherwise emitted as optional), a declared
variable (optional per declaration), or an item the visitor does not
dispatch on (e.g. a switch), which contributes nothing. -/
inductive UnitItemKind where
  | field (transient : Bool) (voidParse : Bool)
  | variable (isOptional : Bool)
  | otherItem

/-- A unit item together with its id and item type. -/
structure UnitItemG (τ : Type) where
  itemId : String
  itemType : τ
  kind : UnitItemKind

/-- The HILTI/Spicy types the projector dispatches on. Each node carries
its optional type id (`t.typeID()`); `otherT` stands for any type the
visitor has no overload for. A `unitT` carries its items; a cyclic type
appears here as its finite unfolding, the same named id occurring on a
nested node. -/
inductive HT where
  | addr (tid : Option String)
  | boolT (tid : Option String)
  | bytes (tid : Option String)
  | interval (tid : Option String)
  | portT (tid : Option String)
  | real (tid : Option String)
  | sint (tid : Option String)
  | stringT (tid : Option String)
  | time (tid : Option String)
  | uint (tid : Option String)
  | enumT (tid : Option String) (labels : List (String × Int))
  | mapT (tid : Option String) (key : HT) (value : HT)
  | optionalT (tid : Option String) (inner : HT)
  | setT (tid : Option String) (elem : HT)
  | structT (tid : Option String) (fields : List (String × HT × Bool))
  | tupleT (tid : Option String) (elems : List (Option String × HT))
  | unitT (tid : Option String) (items : List (UnitItemG HT))
  | vectorT (tid : Option String) (elem : HT)
  | otherT (tid : Option String) (tname : String)

/-- `t.typeID()`. -/
def HT.typeID : HT → Option String
  | .addr tid | .boolT tid | .bytes tid | .interval tid | .portT tid | .real tid
  | .sint tid | .stringT tid | .time tid | .uint tid => tid
  | .enumT tid _ => tid
  | .mapT tid _ _ => tid
  | .optionalT tid _ => tid
  | .setT tid _ => tid
  | .structT tid _ => tid
  | .tupleT tid _ => tid
  | .unitT tid _ => tid
  | .vectorT tid _ => tid
  | .otherT tid _ => tid

/-- `t.typename_()`, used in the "no support" error message. -/
def HT.tyname : HT → String
  | .otherT _ n => n
  | _ => ""

/-- `GlueCompiler::recordFields`: project a unit's items to record fields,
skipping transient and void-parse fields, marking parse fields optional and
variables optional per declaration. -/
def recordFields (items : List (UnitItemG HT)) : List (String × HT × Bool) :=
  items.foldr
    (fun it acc =>
      match it.kind with
      | .field transient voidParse =>
        if transient || voidParse then acc else (it.itemId, it.itemType, true) :: acc
      | .variable isOptional => (it.itemId, it.itemType, isOptional) :: acc
      | .otherItem => acc)
    []

/-- The AST expressions the projector emits: calls to the runtime's type
constructors. -/
inductive ZExpr where
  | baseType (tag : String)
  | enumType (ns lo : String) (labels : List (String × Int))
  | recordType (ns lo : String) (fields : List (String × ZExpr × Bool))
  | tableType (key : ZExpr) (value : Option ZExpr)
  | vectorType (elem : ZExpr)

/-- The mutable members of a `VisitorZeekType` instance: the
currently-under-construction id set `zeek_types` and the member
`std::optional<ID> id`. The optional is modelled as an engaged flag plus
the stored payload: the source dereferences `id` after nested calls may
have disengaged it, which is undefined behaviour in C++; the model adopts
the persisted-payload behaviour of common library implementations. All
inputs used in the theorems below keep the optional engaged throughout. -/
structure VSt where
  zeek_types : List String
  idEng : Bool
  idVal : String
deriving Repr, DecidableEq

/-- `VisitorZeekType::createZeekType` with the dispatch on the type inlined
(each `operator()` case is one branch of the match). `fuel` bounds the
nesting depth only; every theorem below supplies enough of it. Faithful
points of the source worth noting: the member `id` is reassigned on every
(also nested) entry and never restored; the under-construction set inserts
the entry id, and after a dispatch that produced a result (successful or
not) erases the *current* member id `*id` — only the no-overload path skips
the erase. -/
def createZeekType : Nat → HT → Option String → VSt → Except String ZExpr × VSt
  | 0, _, _, st => (.error "projection budget exhausted", st)
  | fuel + 1, t, id_, st0 =>
    let idOpt : Option String :=
      match id_ with
      | some x => some x
      | none => t.typeID
    let st1 : VSt :=
      match idOpt with
      | some x => { st0 with idEng := true, idVal := x }
      | none => { st0 with idEng := false }
    let afterCheck : Option (Except String ZExpr × VSt) :=
      match idOpt with
      | some x =>
        if x ∈ st1.zeek_types then some (.error "type is self-recursive", st1) else none
      | none => none
    match afterCheck with
    | some r => r
    | none =>
      let st2 : VSt :=
        match idOpt with
        | some x => { st1 with zeek_types := st1.zeek_types ++ [x] }
        | none => st1
      -- `dispatch(t)`: `none` when no overload matches.
      let dres : Option (Except String ZExpr) × VSt :=
        match t with
        | .addr _ => (some (.ok (.baseType "zeek_rt::ZeekTypeTag::Addr")), st2)
        | .boolT _ => (some (.ok (.baseType "zeek_rt::ZeekTypeTag::Bool")), st2)
        | .bytes _ => (some (.ok (.baseType "zeek_rt::ZeekTypeTag::String")), st2)
        | .interval _ => (some (.ok (.baseType "zeek_rt::ZeekTypeTag::Interval")), st2)
        | .portT _ => (some (.ok (.baseType "zeek_rt::ZeekTypeTag::Port")), st2)
        | .real _ => (some (.ok (.baseType "zeek_rt::ZeekTypeTag::Double")), st2)
        | .sint _ => (some (.ok (.baseType "zeek_rt::ZeekTypeTag::Int")), st2)
        | .stringT _ => (some (.ok (.baseType "zeek_rt::ZeekTypeTag::String")), st2)
        | .time _ => (some (.ok (.baseType "zeek_rt::ZeekTypeTag::Time")), st2)
        | .uint _ => (some (.ok (.baseType "zeek_rt::ZeekTypeTag::Count")), st2)
        | .enumT _ labels =>
          (some (.ok (.enumType (idNamespace st2.idVal) (idLocal st2.idVal) labels)), st2)
        | .mapT _ k v =>
          match createZeekType fuel k none st2 with
          | (.error e, s) => (some (.error e), s)
          | (.ok zk, s) =>
            match createZeekType fuel v none s with
            | (.error e, s') => (some (.error e), s')
            | (.ok zv, s') => (some (.ok (.tableType zk (some zv))), s')
        | .optionalT _ inner =>
          let (r, s) := createZeekType fuel inner none st2
          (some r, s)
        | .setT _ elem =>
          match createZeekType fuel elem none st2 with
          | (.error e, s) => (some (.error e), s)
          | (.ok z, s) => (some (.ok (.tableType z none)), s)
        | .structT _ fields =>
          let folded :=
            fields.foldl
              (fun acc f =>
                match acc with
                | (Except.error e, s) => (Except.error e, s)
                | (Except.ok fs, s) =>
                  match createZeekType fuel f.2.1 none s with
                  | (.error e, s') => (Except.error e, s')
                  | (.ok z, s') => (Except.ok (fs ++ [(f.1, z, f.2.2)]), s'))
              ((Except.ok ([] : List (String × ZExpr × Bool)) : Except String _), st2)
          match folded with
          | (.error e, s) => (some (.error e), s)
          | (.ok fs, s) =>
            (some (.ok (.recordType (idNamespace s.idVal) (idLocal s.idVal) fs)), s)
        | .tupleT _ elems =>
          let folded :=
            elems.foldl
              (fun acc f =>
                match acc with
                | (Except.error e, s) => (Except.error e, s)
                | (Except.ok fs, s) =>
                  match f.1 with
                  | none =>
                    (Except.error "can only convert tuple types with all-named fields to Zeek", s)
                  | some nm =>
                    match createZeekType fuel f.2 none s with
                    | (.error e, s') => (Except.error e, s')
                    | (.ok z, s') => (Except.ok (fs ++ [(nm, z, false)]), s'))
              ((Except.ok ([] : List (String × ZExpr × Bool)) : Except String _), st2)
          match folded with
          | (.error e, s) => (some (.error e), s)
          | (.ok fs, s) =>
            (some (.ok (.recordType (idNamespace s.idVal) (idLocal s.idVal) fs)), s)
        | .unitT _ items =>
          let folded :=
            (recordFields items).foldl
              (fun acc f =>
                match acc with
                | (Except.error e, s) => (Except.error e, s)
                | (Except.ok fs, s) =>
                  match createZeekType fuel f.2.1 none s with
                  | (.error e, s') => (Except.error e, s')
                  | (.ok z, s') => (Except.ok (fs ++ [(f.1, z, f.2.2)]), s'))
              ((Except.ok ([] : List (String × ZExpr × Bool)) : Except String _), st2)
          match folded with
          | (.error e, s) => (some (.error e), s)
          | (.ok fs, s) =>
            (some (.ok (.recordType (idNamespace s.idVal) (idLocal s.idVal) fs)), s)
        | .vectorT _ elem =>
          match createZeekType fuel elem none st2 with
          | (.error e, s) => (some (.error e), s)
          | (.ok z, s) => (some (.ok (.vectorType z)), s)
        | .otherT _ _ => (none, st2)
      match dres with
      | (none, s) =>
        (.error ("no support for automatic conversion into a Zeek type (" ++ t.tyname ++ ")"), s)
      | (some r, s) =>
        (r, { s with zeek_types := s.zeek_types.erase s.idVal })

/-- `GlueCompiler::createZeekType`: a fresh visitor per exported type;
unqualified ids are rejected up front. -/
def createZeekTypeTop (fuel : Nat) (t : HT) (id : String) : Except String ZExpr :=
  if idNamespace id ≠ "" then (createZeekType fuel t (some id) ⟨[], false, ""⟩).1
  else .error "exported ID must be fully qualified"

/-! Runtime support (`src/src/plugin/runtime-support.cc`). -/

/-- A host-side enum type: its qualified name and its registered labels as
`(module, name, value)` triples, in `AddName` order. -/
structure ZeekEnumType where
  ename : String
  entries : List (String × String × Int)
deriving Repr, DecidableEq

/-- `std::numeric_limits<zeek_int_t>::max()` (`zeek_int_t` is a 64-bit
signed integer). -/
def zeekIntMax : Int := 2 ^ 63 - 1

/-- `rt::create_enum_type`: if the host already has an enum type of that
qualified name (the `findType` interface into the host's id registry is
external and passed as a parameter), return it unchanged; otherwise build a
fresh enum type registering each label `(lid, lval)` under the name
`<id>_<lid>` with value `lval`, except that the value `-1` is replaced by
the maximum `zeek_int_t`. -/
def create_enum_type (findT : String → String → Option ZeekEnumType) (ns id : String)
    (labels : List (String × Int)) : ZeekEnumType :=
  match findT ns id with
  | some t => t
  | none =>
    { ename := ns ++ "::" ++ id
      entries := labels.map (fun p =>
        let nm := id ++ "_" ++ p.1
        let v := if p.2 = -1 then zeekIntMax else p.2
        (ns, nm, v)) }

/-- The runtime errors thrown by `rt::raise_event`. -/
inductive RtErr where
  | typeMismatch (msg : String)
  | invalidValue (msg : String)
deriving Repr, DecidableEq

/-- A host value behind a `ValPtr`; `none` models the null pointer. -/
abbrev Val := Nat

/-- The argument-collection loop of `raise_event`: a null value throws
`InvalidValue`, otherwise the values are collected in order. -/
def collectArgs : List (Option Val) → Except RtErr (List Val)
  | [] => .ok []
  | some v :: rest =>
    match collectArgs rest with
    | .error e => .error e
    | .ok vl => .ok (v :: vl)
  | none :: _ => .error (.invalidValue "null value encountered after conversion")

/-- `rt::raise_event`: check the argument count against the handler's
declared parameter list, collect the (non-null) values, and enqueue the
event — the returned list is the single enqueued argument vector. -/
def raise_event (handlerParams : List String) (args : List (Option Val)) :
    Except RtErr (List Val) :=
  if args.length ≠ handlerParams.length then
    .error (.typeMismatch ("expected " ++ toString handlerParams.length ++
      " parameters, but got " ++ toString args.length))
  else
    collectArgs args

/-! Code generator (`GlueCompiler::compile`). -/

/-- The statements `compile()` appends to the body of the generated
`preinit` function, identified by the call target and the identifying
argument (analyzer name, event name, or exported type id). -/
inductive Stmt where
  | versionCall
  | regProtocolAnalyzer (name : String)
  | regFileAnalyzer (name : String)
  | regPacketAnalyzer (name : String)
  | installHandler (name : String)
  | regType (ns lo : String)
deriving Repr, DecidableEq

/-- Whether `CreateSpicyHook` succeeds for an event, parameterised by the
external Spicy expression parser `parseE` (`spicy::parseExpression` is not
part of this repository): the condition, if any, must parse; each accessor
expression must be one of the four reserved `$` parameters, or not start
with `$` and parse. (`CreateSpicyHook` adds hook declarations to the
per-module Spicy modules, never to `preinit`.) -/
def hookOk (parseE : String → Bool) (ev : Event) : Bool :=
  (ev.condition = "" || parseE ev.condition) &&
  ev.expression_accessors.all (fun a =>
    if a.2 = "$conn" || a.2 = "$file" || a.2 = "$packet" || a.2 = "$is_orig" then true
    else if sStartsWith a.2 "$" then false
    else parseE a.2)

/-- The protocol-analyzer loop of `compile()`: resolve the declared units
(failure returns false, i.e. `none`), require a TCP or UDP transport (any
other value hits `internalError`, modelled as `none` too), and emit one
`register_protocol_analyzer` call per analyzer in order. -/
def compileProtocolAnalyzers (d : Driver) : List ProtocolAnalyzer → Option (List Stmt)
  | [] => some []
  | a :: rest =>
    if a.unit_name_orig ≠ "" ∧ (lookupTypeUnit d a.unit_name_orig).isNone then none
    else if a.unit_name_resp ≠ "" ∧ (lookupTypeUnit d a.unit_name_resp).isNone then none
    else
      match a.protocol with
      | some .TCP | some .UDP =>
        match compileProtocolAnalyzers d rest with
        | none => none
        | some stmts => some (Stmt.regProtocolAnalyzer a.name :: stmts)
      | _ => none

/-- The file-analyzer loop of `compile()`. -/
def compileFileAnalyzers (d : Driver) : List FileAnalyzer → Option (List Stmt)
  | [] => some []
  | a :: rest =>
    if a.unit_name ≠ "" ∧ (lookupTypeUnit d a.unit_name).isNone then none
    else
      match compileFileAnalyzers d rest with
      | none => none
      | some stmts => some (Stmt.regFileAnalyzer a.name :: stmts)

/-- The packet-analyzer loop of `compile()`. -/
def compilePacketAnalyzers (d : Driver) : List PacketAnalyzer → Option (List Stmt)
  | [] => some []
  | a :: rest =>
    if a.unit_name ≠ "" ∧ (lookupTypeUnit d a.unit_name).isNone then none
    else
      match compilePacketAnalyzers d rest with
      | none => none
      | some stmts => some (Stmt.regPacketAnalyzer a.name :: stmts)

/-- The exported-types loop of `compile()` over `driver->types(true)`:
each successfully projected type contributes one `register_type` call (with
the id's namespace and local part); a projection error is logged (the
error flag) and contributes no call; every id is added to the seen set
either way. -/
def compileTypes (vfuel : Nat) : List (String × HT) → List Stmt × List String × Bool
  | [] => ([], [], false)
  | (tid, t) :: rest =>
    let (ts, seen, err) := compileTypes vfuel rest
    match createZeekTypeTop vfuel t tid with
    | .ok _ => (Stmt.regType (idNamespace tid) (idLocal tid) :: ts, tid :: seen, err)
    | .error _ => (ts, tid :: seen, true)

/-- `GlueCompiler::compile`, reduced to the `preinit` body it assembles:
the version call first, then the statements of the analyzer loops, the
per-event `install_handler` calls, and the `register_type` calls.
`none` models `return false` (and the `internalError` aborts); the boolean
is whether any non-fatal error was logged (projection failures and
unaccounted exports), so a successful compile is `some (stmts, false)`. -/
def compile (d : Driver) (types : List (String × HT)) (parseE : String → Bool)
    (vfuel : Nat) (g : GlueState) : Option (List Stmt × Bool) :=
  match populateEvents d g.spicy_modules g.events with
  | none => none
  | some evs =>
    match compileProtocolAnalyzers d g.protocol_analyzers with
    | none => none
    | some ps =>
      match compileFileAnalyzers d g.file_analyzers with
      | none => none
      | some fs =>
        match compilePacketAnalyzers d g.packet_analyzers with
        | none => none
        | some ks =>
          if evs.all (hookOk parseE) then
            let insts := evs.map (fun ev => Stmt.installHandler ev.name)
            let (ts, seen, terr) := compileTypes vfuel types
            let exerr := g.exports.any (fun e => e ∉ seen)
            some (Stmt.versionCall :: (ps ++ fs ++ ks ++ insts ++ ts), terr || exerr)
          else none

/-! Auxiliary definitions used by the theorems below. -/

/-- The state transition `preprocessEvtFile` applies to the external
preprocessor for one input line: directives are fed to `processLine`
(states on failing directives are irrelevant — the run aborts), other lines
leave the state alone. -/
def ppAdvance {σ : Type} (pp : PP σ) (st : σ) (line : String) : σ :=
  let trimmed := trimS line
  if sStartsWith trimmed "@" then
    match pp.processLine st (split1 trimmed).1 (split1 trimmed).2 with
    | .error _ => st
    | .ok st' => st'
  else st

/-- The preprocessor state in force when the k-th input line (0-based) is
read. -/
def ppStateAt {σ : Type} (pp : PP σ) (st : σ) (lines : List String) (k : Nat) : σ :=
  (lines.take k).foldl (ppAdvance pp) st

/-- A trivial preprocessor implementation (always including, accepting
every directive), used to instantiate the preprocessor-parametric theorems
on concrete runs. -/
def ppTriv : PP Unit where
  processLine := fun s _ _ => .ok s
  mode := fun _ => .Include
  expectingDirective := fun _ => false

/-- A concrete driver for instantiating the driver-parametric theorems:
one unit type `M::U` living in module `M`. -/
def drvM : Driver where
  lookup := fun id => if id = "M::U" then some ⟨true, "M", "m.spicy"⟩ else none

/-- A concrete event fixture (pre-resolution) for instantiating theorems. -/
def evW : Event :=
  { name := "e", path := "M::U", exprs := ["self.x"], condition := "", priority := -1000,
    file := "f", unit := "", hook := "", unit_type := none, unit_module_id := "",
    unit_module_path := "", spicy_module := none, expression_accessors := [] }

/-- A concrete declaration store fixture. -/
def gW : GlueState :=
  { protocol_analyzers := [{ name := "P", protocol := some .TCP, unit_name_orig := "M::U",
                             unit_name_resp := "M::U", ports := [(80, .TCP)], replaces := "" }],
    file_analyzers := [{ name := "F", unit_name := "", mime_types := [], replaces := "" }],
    packet_analyzers := [{ name := "K", unit_name := "", replaces := "" }],
    events := [evW], imports := [], exports := ["NS::E"], spicy_modules := ["M"] }

/-- A concrete exported-types fixture. -/
def typesW : List (String × HT) := [("NS::E", HT.enumT (some "NS::E") [("A", 1)])]

/-- The empty declaration store. -/
def gEmpty : GlueState := ⟨[], [], [], [], [], [], []⟩

/-- An `.evt` file whose third chunk fails to parse. -/
def linesAbort : List String :=
  ["protocol analyzer P over TCP: parse with M::U;",
   "on M::U -> event e(self.x);",
   "nonsense;"]

/-- The store left behind by the aborted load of `linesAbort`. -/
def gAbortOut : GlueState :=
  { protocol_analyzers := [{ name := "P", protocol := some .TCP, unit_name_orig := "M::U",
                             unit_name_resp := "M::U", ports := [], replaces := "" }],
    file_analyzers := [], packet_analyzers := [], events := [], imports := [],
    exports := [], spicy_modules := [] }

/-! Theorems. -/

theorem portLoop_none (proto : Proto) :
    ∀ (fuel p : Nat) (acc : List Port), p ≤ 65535 →
      portLoop proto fuel p (some 65535) acc = none := by
  intro fuel
  induction fuel with
  | zero => intro p acc hp; rfl
  | succ k ih =>
    intro p acc hp
    simp only [portLoop, if_pos hp]
    exact ih ((p + 1) % 65536) _ (by omega)

/-- C1: evaluating `extract_ports` at the failing input. A valid range
ending at port 65535 never finishes: the `uint16_t` loop counter wraps
around and the condition `port <= end->port()` holds for every value, so no
step budget suffices (the C++ loop runs forever); the claim's termination
and closed-interval expansion fail there. On ranges ending below 65535 the
expansion is the claimed closed interval, and a single port token yields
the one-element list. -/
theorem extract_ports_wraps_at_65535 :
    (∀ fuel : Nat, extract_ports fuel ("1/tcp-65535/tcp".toList) 0 = none) ∧
    extract_ports 70000 ("80/tcp-82/tcp".toList) 0 =
      some (.ok ([(80, .TCP), (81, .TCP), (82, .TCP)], 13)) ∧
    extract_ports 70000 ("80/tcp".toList) 0 = some (.ok ([(80, .TCP)], 6)) := by
  refine ⟨?_, by exact rfl, by exact rfl⟩
  intro fuel
  show (match portLoop Proto.TCP fuel 1 (some 65535) [] with
        | none => none
        | some res => some (Except.ok (res, 15))) = none
  rw [portLoop_none Proto.TCP fuel 1 [] (by norm_num)]

/-- C2: in `getNextEvtBlock`, a `;` read in the `InString` state is kept
literally and never terminates the chunk (the scan continues on the rest of
the stream); a `;` read in the `InComment` state is discarded and never
terminates the chunk; a `;` read in the `Default` state always terminates
it, returning the trimmed chunk with `;` appended when that is non-empty
and the error "empty block" otherwise. -/
theorem getNextEvtBlock_semicolon :
    (∀ (rest : List Char) (prev : Char) (chunk : List Char) (lineno : Nat),
        getNextEvtBlock (';' :: rest) .InString prev chunk lineno =
          getNextEvtBlock rest .InString ';' (chunk ++ [';']) lineno) ∧
    (∀ (rest : List Char) (prev : Char) (chunk : List Char) (lineno : Nat),
        getNextEvtBlock (';' :: rest) .InComment prev chunk lineno =
          getNextEvtBlock rest .InComment prev chunk lineno) ∧
    (∀ (rest : List Char) (prev : Char) (chunk : List Char) (lineno : Nat),
        getNextEvtBlock (';' :: rest) .Default prev chunk lineno =
          if (trimChars chunk).length ≠ 0 then
            .ok (String.mk (trimChars chunk ++ [';']), rest, lineno)
          else .error "empty block") :=
  ⟨fun _ _ _ _ => rfl, fun _ _ _ _ => rfl, fun _ _ _ _ => rfl⟩

/-- C6: evaluating the projector at the failing input. `NS::Mid` is a
non-recursive named struct containing the named enum `NS::Inner`. After a
*successful* projection of `NS::Mid` from an empty under-construction set,
its id is still in the set (the exit erase removed the mutated member id
`NS::Inner` instead), and the projection of a struct with two sibling
fields of type `NS::Mid` fails with "type is self-recursive" although no
type is recursive — the claim's removal-on-exit and sibling properties
fail on the code. -/
theorem createZeekType_erase_bug :
    (createZeekType 10
        (HT.structT (some "NS::Mid") [("x", HT.enumT (some "NS::Inner") [("A", 1)], false)])
        (some "NS::Mid") ⟨[], false, ""⟩).1 =
      .ok (.recordType "NS" "Inner" [("x", .enumType "NS" "Inner" [("A", 1)], false)]) ∧
    (createZeekType 10
        (HT.structT (some "NS::Mid") [("x", HT.enumT (some "NS::Inner") [("A", 1)], false)])
        (some "NS::Mid") ⟨[], false, ""⟩).2.zeek_types = ["NS::Mid"] ∧
    createZeekTypeTop 10
        (HT.structT (some "NS::Outer")
          [("a", HT.structT (some "NS::Mid")
                  [("x", HT.enumT (some "NS::Inner") [("A", 1)], false)], false),
           ("b", HT.structT (some "NS::Mid")
                  [("x", HT.enumT (some "NS::Inner") [("A", 1)], false)], false)])
        "NS::Outer" =
      .error "type is self-recursive" :=
  ⟨rfl, rfl, rfl⟩

/-- C7: at runtime, `create_enum_type` (when the host does not already know
the type) registers every label of value `-1` with the maximum
`zeek_int_t` in its place and every other label with its own value, under
the name `<id>_<label>`; and the compile-time projector passes enum label
values through unchanged. -/
theorem create_enum_type_spec :
    (∀ (findT : String → String → Option ZeekEnumType) (ns id : String)
        (labels : List (String × Int)),
        findT ns id = none →
        (create_enum_type findT ns id labels).entries =
          labels.map (fun p => (ns, id ++ "_" ++ p.1, if p.2 = -1 then zeekIntMax else p.2))) ∧
    (∀ (fuel : Nat) (tid : Option String) (lbls : List (String × Int))
        (id_ : Option String) (st : VSt) (ns lo : String) (lbls' : List (String × Int)),
        (createZeekType (fuel + 1) (.enumT tid lbls) id_ st).1 = .ok (.enumType ns lo lbls') →
        lbls' = lbls) := by
  constructor
  · intro findT ns id labels h
    unfold create_enum_type
    rw [h]
  · intro fuel tid lbls id_ st ns lo lbls' h
    cases id_ with
    | some x =>
      simp only [createZeekType] at h
      by_cases hx : x ∈ st.zeek_types
      · simp [hx] at h
      · simp [hx] at h
        exact h.2.2.symm
    | none =>
      cases tid with
      | some x =>
        simp only [createZeekType, HT.typeID] at h
        by_cases hx : x ∈ st.zeek_types
        · simp [hx] at h
        · simp [hx] at h
          exact h.2.2.symm
      | none =>
        simp only [createZeekType, HT.typeID] at h
        simp at h
        exact h.2.2.symm

/-- C7 witness: both parts of `create_enum_type_spec` applied at concrete
inputs: the `-1` label lands on the maximum `zeek_int_t`, the other keeps
its value, and a concrete enum projection keeps its labels. -/
theorem create_enum_type_spec_witness :
    (create_enum_type (fun _ _ => none) "NS" "E" [("Undef", -1), ("A", 5)]).entries =
      [("NS", "E_Undef", zeekIntMax), ("NS", "E_A", 5)] ∧
    [("A", (3 : Int))] = [("A", (3 : Int))] := by
  constructor
  · exact (create_enum_type_spec.1 (fun _ _ => none) "NS" "E" [("Undef", -1), ("A", 5)]
      rfl).trans (by decide)
  · exact create_enum_type_spec.2 0 (some "NS::E") [("A", 3)] (some "NS::E")
      ⟨[], false, ""⟩ "NS" "E" [("A", 3)] rfl

theorem ppStateAt_succ_cons {σ : Type} (pp : PP σ) (st : σ) (l : String) (rest : List String)
    (k : Nat) : ppStateAt pp st (l :: rest) (k + 1) = ppStateAt pp (ppAdvance pp st l) rest k := by
  simp [ppStateAt, List.take_succ_cons]

/-- C3: on every input on which `preprocessEvtFile` succeeds, it emits
exactly one output line per input line — so the output's line count equals
the input's — and the k-th output line is determined by the k-th input
line: blank when the trimmed input line starts with `@`, blank when the
preprocessor is in `Skip` state at that line, and the input line verbatim
otherwise. -/
theorem preprocessEvtFile_line_preserving {σ : Type} (pp : PP σ) :
    ∀ (st : σ) (lines out : List String),
      preprocessEvtFile pp st lines = .ok out →
      out.length = lines.length ∧
      ∀ k, k < lines.length →
        out.getD k "" =
          (if sStartsWith (trimS (lines.getD k "")) "@" then ""
           else
             match pp.mode (ppStateAt pp st lines k) with
             | .Include => lines.getD k ""
             | .Skip => "") := by
  intro st lines
  induction lines generalizing st with
  | nil =>
    intro out h
    simp only [preprocessEvtFile] at h
    split at h
    · exact absurd h (by simp)
    · simp only [Except.ok.injEq] at h
      subst h
      exact ⟨rfl, fun k hk => absurd hk (by simp)⟩
  | cons line rest ih =>
    intro out h
    simp only [preprocessEvtFile] at h
    by_cases hdir : sStartsWith (trimS line) "@"
    · rw [if_pos hdir] at h
      rcases hps : pp.processLine st (split1 (trimS line)).1 (split1 (trimS line)).2 with e | st'
      · rw [hps] at h; exact absurd h (by simp)
      · rw [hps] at h
        dsimp only at h
        rcases hrest : preprocessEvtFile pp st' rest with e | out'
        · rw [hrest] at h; exact absurd h (by simp)
        · rw [hrest] at h
          simp only [Except.ok.injEq] at h
          subst h
          obtain ⟨hlen, hpt⟩ := ih st' out' hrest
          have hadv : ppAdvance pp st line = st' := by
            unfold ppAdvance
            rw [if_pos hdir, hps]
          refine ⟨by simp [hlen], ?_⟩
          intro k hk
          cases k with
          | zero => simp [hdir]
          | succ k =>
            simp only [List.getD_cons_succ, List.length_cons] at hk ⊢
            rw [ppStateAt_succ_cons, hadv]
            exact hpt k (by omega)
    · rw [if_neg hdir] at h
      have hstep : ppAdvance pp st line = st := by
        unfold ppAdvance
        rw [if_neg hdir]
      rcases hmode : pp.mode st with _ | _
      · rw [hmode] at h
        dsimp only at h
        rcases hrest : preprocessEvtFile pp st rest with e | out'
        · rw [hrest] at h; exact absurd h (by simp)
        · rw [hrest] at h
          simp only [Except.ok.injEq] at h
          subst h
          obtain ⟨hlen, hpt⟩ := ih st out' hrest
          refine ⟨by simp [hlen], ?_⟩
          intro k hk
          cases k with
          | zero => simp [hdir, ppStateAt, hmode]
          | succ k =>
            simp only [List.getD_cons_succ, List.length_cons] at hk ⊢
            rw [ppStateAt_succ_cons, hstep]
            exact hpt k (by omega)
      · rw [hmode] at h
        dsimp only at h
        rcases hrest : preprocessEvtFile pp st rest with e | out'
        · rw [hrest] at h; exact absurd h (by simp)
        · rw [hrest] at h
          simp only [Except.ok.injEq] at h
          subst h
          obtain ⟨hlen, hpt⟩ := ih st out' hrest
          refine ⟨by simp [hlen], ?_⟩
          intro k hk
          cases k with
          | zero => simp [hdir, ppStateAt, hmode]
          | succ k =>
            simp only [List.getD_cons_succ, List.length_cons] at hk ⊢
            rw [ppStateAt_succ_cons, hstep]
            exact hpt k (by omega)

/-- C3 witness: a concrete run — a directive line and a plain line — where
the output has one line per input line. -/
theorem preprocessEvtFile_line_preserving_witness :
    preprocessEvtFile ppTriv () ["@if x", "keep"] = .ok ["", "keep"] ∧
    (["", "keep"] : List String).length = (["@if x", "keep"] : List String).length := by
  have h := preprocessEvtFile_line_preserving ppTriv () ["@if x", "keep"] ["", "keep"]
    (by exact rfl)
  exact ⟨by exact rfl, h.1⟩

theorem collectArgs_ok_iff (args : List (Option Val)) :
    (∃ vl, collectArgs args = .ok vl) ↔ ∀ a ∈ args, a.isSome := by
  induction args with
  | nil => simp [collectArgs]
  | cons a rest ih =>
    cases a with
    | none => simp [collectArgs]
    | some v =>
      simp only [collectArgs, List.mem_cons]
      constructor
      · rintro ⟨vl, hvl⟩
        rcases h : collectArgs rest with e | vl'
        · rw [h] at hvl; exact absurd hvl (by simp)
        · intro x hx
          rcases hx with hx | hx
          · subst hx; rfl
          · exact (ih.mp ⟨vl', h⟩) x hx
      · intro h
        obtain ⟨vl', hvl'⟩ := ih.mpr (fun x hx => h x (Or.inr hx))
        exact ⟨v :: vl', by rw [hvl']⟩

theorem collectArgs_ok_val (args : List (Option Val)) (vl : List Val)
    (h : collectArgs args = .ok vl) : vl = args.reduceOption := by
  induction args generalizing vl with
  | nil => simp [collectArgs] at h; simp [h, List.reduceOption]
  | cons a rest ih =>
    cases a with
    | none => simp [collectArgs] at h
    | some v =>
      simp only [collectArgs] at h
      rcases h' : collectArgs rest with e | vl'
      · rw [h'] at h; exact absurd h (by simp)
      · rw [h'] at h
        simp only [Except.ok.injEq] at h
        subst h
        simp [List.reduceOption, ih vl' h']

theorem collectArgs_error_form (args : List (Option Val)) :
    ∀ e, collectArgs args = .error e → ∃ m, e = .invalidValue m := by
  induction args with
  | nil => intro e h; simp [collectArgs] at h
  | cons a rest ih =>
    intro e h
    cases a with
    | none =>
      simp only [collectArgs, Except.error.injEq] at h
      exact ⟨_, h.symm⟩
    | some v =>
      simp only [collectArgs] at h
      rcases h' : collectArgs rest with e' | vl'
      · rw [h'] at h
        simp only [Except.error.injEq] at h
        subst h
        exact ih _ h'
      · rw [h'] at h; exact absurd h (by simp)

/-- C10: `raise_event` enqueues the event exactly once — with exactly the
supplied values — precisely when the argument count equals the handler's
declared parameter count and every value is non-null; a count mismatch
throws `TypeMismatch`, and a null value (with matching count) throws
`InvalidValue`. -/
theorem raise_event_spec (ps : List String) (args : List (Option Val)) :
    ((∃ vl, raise_event ps args = .ok vl) ↔
      (args.length = ps.length ∧ ∀ a ∈ args, a.isSome)) ∧
    (∀ vl, raise_event ps args = .ok vl → vl = args.reduceOption) ∧
    (args.length ≠ ps.length → ∃ m, raise_event ps args = .error (.typeMismatch m)) ∧
    (args.length = ps.length → (∃ a ∈ args, a = none) →
      ∃ m, raise_event ps args = .error (.invalidValue m)) := by
  unfold raise_event
  by_cases hlen : args.length = ps.length
  · rw [if_neg (by simp [hlen])]
    refine ⟨?_, ?_, ?_, ?_⟩
    · rw [collectArgs_ok_iff]
      exact ⟨fun h => ⟨hlen, h⟩, fun h => h.2⟩
    · intro vl h; exact collectArgs_ok_val args vl h
    · intro h; exact absurd hlen h
    · rintro _ ⟨a, ha, hnone⟩
      rcases h : collectArgs args with e | vl
      · obtain ⟨m, hm⟩ := collectArgs_error_form args e h
        exact ⟨m, by rw [hm]⟩
      · have := (collectArgs_ok_iff args).mp ⟨vl, h⟩ a ha
        rw [hnone] at this
        simp at this
  · rw [if_pos hlen]
    refine ⟨?_, ?_, ?_, ?_⟩
    · constructor
      · rintro ⟨vl, hvl⟩; exact absurd hvl (by simp)
      · rintro ⟨h, _⟩; exact absurd h hlen
    · intro vl h; exact absurd h (by simp)
    · intro _; exact ⟨_, rfl⟩
    · intro h; exact absurd h hlen

/-- C10 witness: a matching call enqueues exactly the given values; an
arity mismatch raises `TypeMismatch`; a null argument raises
`InvalidValue`. -/
theorem raise_event_spec_witness :
    raise_event ["p1"] [some 7] = .ok [7] ∧
    (∃ m, raise_event ["p1"] [] = .error (.typeMismatch m)) ∧
    (∃ m, raise_event ["p1", "p2"] [some 7, none] = .error (.invalidValue m)) := by
  refine ⟨?_, ?_, ?_⟩
  · obtain ⟨vl, hvl⟩ := (raise_event_spec ["p1"] [some 7]).1.mpr ⟨rfl, by decide⟩
    have hv := (raise_event_spec ["p1"] [some 7]).2.1 vl hvl
    rw [hvl, hv]; rfl
  · exact (raise_event_spec ["p1"] []).2.2.1 (by decide)
  · exact (raise_event_spec ["p1", "p2"] [some 7, none]).2.2.2 (by decide) ⟨none, by simp, rfl⟩

theorem populateEvent1_spec (d : Driver) (mods : List String) (ev ev' : Event)
    (h0 : ev.unit_type = none) (h : populateEvent1 d mods ev = some ev') :
    ((lookupTypeUnit d ev'.unit).isSome ∧ ev'.unit = ev'.path ∧
      ev'.hook = ev'.unit ++ "::0x25_done") ∨
    (∃ ti, d.lookup ev'.unit = some ti ∧ ti.isUnit = true ∧
      ev'.unit = idNamespace ev'.path ∧ ev'.unit ≠ "" ∧ ev'.hook = ev'.path) := by
  unfold populateEvent1 at h
  rw [h0] at h
  simp only [Option.isSome_none, Bool.false_eq_true, if_false] at h
  rcases hl : lookupTypeUnit d ev.path with _ | ui
  · rw [hl] at h
    dsimp only at h
    by_cases hns : idNamespace ev.path = ""
    · rw [if_pos hns] at h; exact absurd h (by simp)
    · rw [if_neg hns] at h
      rcases hlu : d.lookup (idNamespace ev.path) with _ | ti
      · rw [hlu] at h; exact absurd h (by simp)
      · rw [hlu] at h
        dsimp only at h
        by_cases hu : ti.isUnit
        · rw [if_pos hu] at h
          unfold finishEvent at h
          split at h
          · simp only [Option.some.injEq] at h
            subst h
            right
            exact ⟨ti, by simpa using hlu, hu, by simp, by simpa using hns, by simp⟩
          · exact absurd h (by simp)
        · rw [if_neg hu] at h; exact absurd h (by simp)
  · rw [hl] at h
    dsimp only at h
    unfold finishEvent at h
    split at h
    · simp only [Option.some.injEq] at h
      subst h
      left
      refine ⟨?_, by simp, by simp⟩
      simpa using congrArg Option.isSome hl
    · exact absurd h (by simp)

/-- C4: after a successful `PopulateEvents` run over events not yet
populated, every event resolves its `unit` to a unit type in the driver's
index, and its `hook` is either `unit ++ "::0x25_done"` with `unit = path`
(direct unit resolution) or exactly `path` with `unit` the non-empty
namespace of `path` resolved via the plain lookup (and checked to be a
unit type by the subsequent cast). -/
theorem populateEvents_spec (d : Driver) (mods : List String) :
    ∀ (evs evs' : List Event),
      (∀ ev ∈ evs, ev.unit_type = none) →
      populateEvents d mods evs = some evs' →
      ∀ ev' ∈ evs',
        ((lookupTypeUnit d ev'.unit).isSome ∧ ev'.unit = ev'.path ∧
          ev'.hook = ev'.unit ++ "::0x25_done") ∨
        (∃ ti, d.lookup ev'.unit = some ti ∧ ti.isUnit = true ∧
          ev'.unit = idNamespace ev'.path ∧ ev'.unit ≠ "" ∧ ev'.hook = ev'.path) := by
  intro evs
  induction evs with
  | nil =>
    intro evs' _ h
    simp only [populateEvents, Option.some.injEq] at h
    subst h
    intro ev' hm
    exact absurd hm (by simp)
  | cons ev rest ih =>
    intro evs' hinit h
    simp only [populateEvents] at h
    rcases h1 : populateEvent1 d mods ev with _ | ev1
    · rw [h1] at h; exact absurd h (by simp)
    · rw [h1] at h
      dsimp only at h
      rcases h2 : populateEvents d mods rest with _ | rest'
      · rw [h2] at h; exact absurd h (by simp)
      · rw [h2] at h
        simp only [Option.some.injEq] at h
        subst h
        intro ev' hm
        rcases List.mem_cons.mp hm with hm | hm
        · subst hm
          exact populateEvent1_spec d mods ev ev' (hinit ev (by simp)) h1
        · exact ih rest' (fun x hx => hinit x (List.mem_cons_of_mem _ hx)) h2 ev' hm


/-- C4 witness: the resolver applied to one event whose path names a unit
type directly. -/
theorem populateEvents_spec_witness :
    ((lookupTypeUnit drvM "M::U").isSome ∧ ("M::U" : String) = "M::U" ∧
      ("M::U::0x25_done" : String) = "M::U" ++ "::0x25_done") ∨
    (∃ ti, drvM.lookup "M::U" = some ti ∧ ti.isUnit = true ∧
      ("M::U" : String) = idNamespace "M::U" ∧ ("M::U" : String) ≠ "" ∧
      ("M::U::0x25_done" : String) = "M::U") := by
  have h := populateEvents_spec drvM ["M"]
    [{ name := "e", path := "M::U", exprs := ["self.x"], condition := "", priority := -1000,
       file := "f", unit := "", hook := "", unit_type := none, unit_module_id := "",
       unit_module_path := "", spicy_module := none, expression_accessors := [] }]
    [{ name := "e", path := "M::U", exprs := ["self.x"], condition := "", priority := -1000,
       file := "f", unit := "M::U", hook := "M::U::0x25_done",
       unit_type := some ⟨true, "M", "m.spicy"⟩, unit_module_id := "M",
       unit_module_path := "m.spicy", spicy_module := some "M",
       expression_accessors := [(1, "self.x")] }]
    (by intro ev hm; simp at hm; subst hm; rfl)
    (by exact rfl)
    _ (by exact List.mem_singleton.mpr rfl)
  simpa using h

theorem populateEvents_names (d : Driver) (mods : List String) :
    ∀ (evs evs' : List Event), populateEvents d mods evs = some evs' →
      evs'.map (fun ev => ev.name) = evs.map (fun ev => ev.name) := by
  intro evs
  induction evs with
  | nil =>
    intro evs' h
    simp only [populateEvents, Option.some.injEq] at h
    subst h; rfl
  | cons ev rest ih =>
    intro evs' h
    simp only [populateEvents] at h
    rcases h1 : populateEvent1 d mods ev with _ | ev1
    · rw [h1] at h; exact absurd h (by simp)
    · rw [h1] at h
      dsimp only at h
      rcases h2 : populateEvents d mods rest with _ | rest'
      · rw [h2] at h; exact absurd h (by simp)
      · rw [h2] at h
        simp only [Option.some.injEq] at h
        subst h
        have hname : ev1.name = ev.name := by
          unfold populateEvent1 at h1
          split at h1
          · simp only [Option.some.injEq] at h1; subst h1; rfl
          · rcases hl : lookupTypeUnit d ev.path with _ | ui
            · rw [hl] at h1
              dsimp only at h1
              split at h1
              · exact absurd h1 (by simp)
              · rcases hlu : d.lookup (idNamespace ev.path) with _ | ti
                · rw [hlu] at h1; exact absurd h1 (by simp)
                · rw [hlu] at h1
                  dsimp only at h1
                  split at h1
                  · unfold finishEvent at h1
                    split at h1
                    · simp only [Option.some.injEq] at h1; subst h1; rfl
                    · exact absurd h1 (by simp)
                  · exact absurd h1 (by simp)
            · rw [hl] at h1
              dsimp only at h1
              unfold finishEvent at h1
              split at h1
              · simp only [Option.some.injEq] at h1; subst h1; rfl
              · exact absurd h1 (by simp)
        simp [hname, ih rest' h2]

theorem compileProtocolAnalyzers_stmts (d : Driver) :
    ∀ (l : List ProtocolAnalyzer) (s : List Stmt), compileProtocolAnalyzers d l = some s →
      s = l.map (fun a => Stmt.regProtocolAnalyzer a.name) := by
  intro l
  induction l with
  | nil => intro s h; simp only [compileProtocolAnalyzers, Option.some.injEq] at h; simp [h.symm]
  | cons a rest ih =>
    intro s h
    simp only [compileProtocolAnalyzers] at h
    by_cases h1 : a.unit_name_orig ≠ "" ∧ (lookupTypeUnit d a.unit_name_orig).isNone = true
    · rw [if_pos h1] at h; exact absurd h (by simp)
    · rw [if_neg h1] at h
      by_cases hr : a.unit_name_resp ≠ "" ∧ (lookupTypeUnit d a.unit_name_resp).isNone = true
      · rw [if_pos hr] at h; exact absurd h (by simp)
      · rw [if_neg hr] at h
        rcases hp : a.protocol with _ | p
        · rw [hp] at h; exact absurd h (by simp)
        · rw [hp] at h
          cases p with
          | TCP =>
            dsimp only at h
            rcases h2 : compileProtocolAnalyzers d rest with _ | s'
            · rw [h2] at h; exact absurd h (by simp)
            · rw [h2] at h
              simp only [Option.some.injEq] at h
              subst h
              simp [ih s' h2]
          | UDP =>
            dsimp only at h
            rcases h2 : compileProtocolAnalyzers d rest with _ | s'
            · rw [h2] at h; exact absurd h (by simp)
            · rw [h2] at h
              simp only [Option.some.injEq] at h
              subst h
              simp [ih s' h2]
          | ICMP => exact absurd h (by simp)

theorem compileFileAnalyzers_stmts (d : Driver) :
    ∀ (l : List FileAnalyzer) (s : List Stmt), compileFileAnalyzers d l = some s →
      s = l.map (fun a => Stmt.regFileAnalyzer a.name) := by
  intro l
  induction l with
  | nil => intro s h; simp only [compileFileAnalyzers, Option.some.injEq] at h; simp [h.symm]
  | cons a rest ih =>
    intro s h
    simp only [compileFileAnalyzers] at h
    split at h
    · exact absurd h (by simp)
    · rcases h2 : compileFileAnalyzers d rest with _ | s'
      · rw [h2] at h; exact absurd h (by simp)
      · rw [h2] at h
        simp only [Option.some.injEq] at h
        subst h
        simp [ih s' h2]

theorem compilePacketAnalyzers_stmts (d : Driver) :
    ∀ (l : List PacketAnalyzer) (s : List Stmt), compilePacketAnalyzers d l = some s →
      s = l.map (fun a => Stmt.regPacketAnalyzer a.name) := by
  intro l
  induction l with
  | nil => intro s h; simp only [compilePacketAnalyzers, Option.some.injEq] at h; simp [h.symm]
  | cons a rest ih =>
    intro s h
    simp only [compilePacketAnalyzers] at h
    split at h
    · exact absurd h (by simp)
    · rcases h2 : compilePacketAnalyzers d rest with _ | s'
      · rw [h2] at h; exact absurd h (by simp)
      · rw [h2] at h
        simp only [Option.some.injEq] at h
        subst h
        simp [ih s' h2]

theorem compileTypes_stmts (vfuel : Nat) :
    ∀ (types : List (String × HT)) (ts : List Stmt) (seen : List String),
      compileTypes vfuel types = (ts, seen, false) →
      ts = types.map (fun t => Stmt.regType (idNamespace t.1) (idLocal t.1)) := by
  intro types
  induction types with
  | nil => intro ts seen h; simp only [compileTypes, Prod.mk.injEq] at h; simp [h.1.symm]
  | cons t rest ih =>
    intro ts seen h
    simp only [compileTypes] at h
    rcases h2 : compileTypes vfuel rest with ⟨ts', seen', err'⟩
    rw [h2] at h
    rcases hz : createZeekTypeTop vfuel t.2 t.1 with e | z
    · rw [hz] at h
      simp only [Prod.mk.injEq] at h
      exact absurd h.2.2.symm (by simp)
    · rw [hz] at h
      simp only [Prod.mk.injEq] at h
      obtain ⟨hts, _, herr⟩ := h
      subst hts
      simp [ih ts' seen' (by rw [h2, herr])]

/-- C5: in a successful compile (no failure and no logged error), the
`preinit` body is exactly: the version call, then one
`register_protocol_analyzer` per protocol analyzer in declaration order,
one `register_file_analyzer` per file analyzer, one
`register_packet_analyzer` per packet analyzer, one `install_handler` per
event in store order, and one `register_type` per exported type, in that
order. -/
theorem compile_preinit_order (d : Driver) (types : List (String × HT)) (parseE : String → Bool)
    (vfuel : Nat) (g : GlueState) (stmts : List Stmt)
    (h : compile d types parseE vfuel g = some (stmts, false)) :
    stmts =
      Stmt.versionCall ::
        (g.protocol_analyzers.map (fun a => Stmt.regProtocolAnalyzer a.name) ++
         g.file_analyzers.map (fun a => Stmt.regFileAnalyzer a.name) ++
         g.packet_analyzers.map (fun a => Stmt.regPacketAnalyzer a.name) ++
         g.events.map (fun ev => Stmt.installHandler ev.name) ++
         types.map (fun t => Stmt.regType (idNamespace t.1) (idLocal t.1))) := by
  unfold compile at h
  rcases h0 : populateEvents d g.spicy_modules g.events with _ | evs
  · rw [h0] at h; exact absurd h (by simp)
  rw [h0] at h
  dsimp only at h
  rcases h1 : compileProtocolAnalyzers d g.protocol_analyzers with _ | ps
  · rw [h1] at h; exact absurd h (by simp)
  rw [h1] at h
  dsimp only at h
  rcases h2 : compileFileAnalyzers d g.file_analyzers with _ | fs
  · rw [h2] at h; exact absurd h (by simp)
  rw [h2] at h
  dsimp only at h
  rcases h3 : compilePacketAnalyzers d g.packet_analyzers with _ | ks
  · rw [h3] at h; exact absurd h (by simp)
  rw [h3] at h
  dsimp only at h
  by_cases hall : evs.all (hookOk parseE)
  · rw [if_pos hall] at h
    rcases h4 : compileTypes vfuel types with ⟨ts, seen, terr⟩
    rw [h4] at h
    dsimp only at h
    simp only [Option.some.injEq, Prod.mk.injEq] at h
    obtain ⟨hstmts, herr⟩ := h
    have hterr : terr = false := by
      rcases Bool.or_eq_false_iff.mp herr with ⟨ht, _⟩
      exact ht
    have hps := compileProtocolAnalyzers_stmts d g.protocol_analyzers ps h1
    have hfs := compileFileAnalyzers_stmts d g.file_analyzers fs h2
    have hks := compilePacketAnalyzers_stmts d g.packet_analyzers ks h3
    have hts := compileTypes_stmts vfuel types ts seen (by rw [h4, hterr])
    have hn := populateEvents_names d g.spicy_modules g.events evs h0
    have hinst : evs.map (fun ev => Stmt.installHandler ev.name) =
        g.events.map (fun ev => Stmt.installHandler ev.name) := by
      calc evs.map (fun ev => Stmt.installHandler ev.name)
          = (evs.map (fun ev => ev.name)).map Stmt.installHandler := by
            rw [List.map_map]; rfl
        _ = (g.events.map (fun ev => ev.name)).map Stmt.installHandler := by rw [hn]
        _ = g.events.map (fun ev => Stmt.installHandler ev.name) := by
            rw [List.map_map]; rfl
    rw [← hstmts, hps, hfs, hks, hts, hinst]
  · rw [if_neg hall] at h
    exact absurd h (by simp)

/-- C5 witness: the order theorem applied to a concrete store with one
analyzer of each kind, one event, and one exported type. -/
theorem compile_preinit_order_witness :
    compile drvM typesW (fun _ => true) 5 gW =
      some ([Stmt.versionCall, .regProtocolAnalyzer "P", .regFileAnalyzer "F",
             .regPacketAnalyzer "K", .installHandler "e", .regType "NS" "E"], false) ∧
    ([Stmt.versionCall, .regProtocolAnalyzer "P", .regFileAnalyzer "F",
      .regPacketAnalyzer "K", .installHandler "e", .regType "NS" "E"] : List Stmt) =
      Stmt.versionCall ::
        (gW.protocol_analyzers.map (fun a => Stmt.regProtocolAnalyzer a.name) ++
         gW.file_analyzers.map (fun a => Stmt.regFileAnalyzer a.name) ++
         gW.packet_analyzers.map (fun a => Stmt.regPacketAnalyzer a.name) ++
         gW.events.map (fun ev => Stmt.installHandler ev.name) ++
         typesW.map (fun t => Stmt.regType (idNamespace t.1) (idLocal t.1))) := by
  constructor
  · exact rfl
  · exact compile_preinit_order drvM typesW (fun _ => true) 5 gW _ (by exact rfl)

theorem storeExt_refl (g : GlueState) :
    g.events = g.events ∧
    (∃ t, g.protocol_analyzers = g.protocol_analyzers ++ t) ∧
    (∃ t, g.file_analyzers = g.file_analyzers ++ t) ∧
    (∃ t, g.packet_analyzers = g.packet_analyzers ++ t) ∧
    (∃ t, g.imports = g.imports ++ t) ∧
    (∃ t, g.exports = g.exports ++ t) ∧
    g.spicy_modules = g.spicy_modules :=
  ⟨rfl, ⟨[], by simp⟩, ⟨[], by simp⟩, ⟨[], by simp⟩, ⟨[], by simp⟩, ⟨[], by simp⟩, rfl⟩

theorem loadLoop_abort (zv : Int) (file : String) :
    ∀ (fuel : Nat) (stream : List Char) (lineno : Nat) (g : GlueState)
      (newEvents : List Event) (g' : GlueState),
      loadLoop zv file fuel stream lineno g newEvents = some (false, g') →
      g'.events = g.events ∧
      (∃ t, g'.protocol_analyzers = g.protocol_analyzers ++ t) ∧
      (∃ t, g'.file_analyzers = g.file_analyzers ++ t) ∧
      (∃ t, g'.packet_analyzers = g.packet_analyzers ++ t) ∧
      (∃ t, g'.imports = g.imports ++ t) ∧
      (∃ t, g'.exports = g.exports ++ t) ∧
      g'.spicy_modules = g.spicy_modules := by
  intro fuel
  induction fuel with
  | zero => intro stream lineno g newEvents g' h; exact absurd h (by simp [loadLoop])
  | succ k ih =>
    intro stream lineno g newEvents g' h
    simp only [loadLoop] at h
    rcases hb : getNextEvtBlock stream .Default '\x00' [] lineno with e | res
    · rw [hb] at h
      dsimp only at h
      simp only [Option.some.injEq, Prod.mk.injEq] at h
      rw [← h.2]
      exact storeExt_refl g
    · rw [hb] at h
      obtain ⟨chunk, rest, lineno2⟩ := res
      dsimp only at h
      by_cases hemp : chunk.isEmpty
      · rw [if_pos hemp] at h
        simp only [Option.some.injEq, Prod.mk.injEq] at h
        exact absurd h.1 (by simp)
      rw [if_neg hemp] at h
      by_cases c1 : looking_at chunk.toList 0 "protocol" ≠ 0
      · rw [if_pos c1] at h
        rcases hp1 : (parseProtocolAnalyzer chunk.toList).run with _ | x
        · rw [hp1] at h; exact absurd h (by simp)
        rw [hp1] at h
        rcases x with e | a
        · dsimp only at h
          simp only [Option.some.injEq, Prod.mk.injEq] at h
          rw [← h.2]
          exact ⟨rfl, ⟨[], by simp⟩, ⟨[], by simp⟩, ⟨[], by simp⟩, ⟨[], by simp⟩, ⟨[], by simp⟩, rfl⟩
        · dsimp only at h
          obtain ⟨he, ⟨t, hpa⟩, hfa, hka, him, hex, hs⟩ := ih _ _ _ _ _ h
          exact ⟨he, ⟨[a] ++ t, by simpa using hpa⟩, hfa, hka, him, hex, hs⟩
      rw [if_neg c1] at h
      by_cases c2 : looking_at chunk.toList 0 "file" ≠ 0
      · rw [if_pos c2] at h
        rcases hp2 : (parseFileAnalyzer chunk.toList).run with _ | x
        · rw [hp2] at h; exact absurd h (by simp)
        rw [hp2] at h
        rcases x with e | a
        · dsimp only at h
          simp only [Option.some.injEq, Prod.mk.injEq] at h
          rw [← h.2]
          exact ⟨rfl, ⟨[], by simp⟩, ⟨[], by simp⟩, ⟨[], by simp⟩, ⟨[], by simp⟩, ⟨[], by simp⟩, rfl⟩
        · dsimp only at h
          obtain ⟨he, hpa, ⟨t, hfa⟩, hka, him, hex, hs⟩ := ih _ _ _ _ _ h
          exact ⟨he, hpa, ⟨[a] ++ t, by simpa using hfa⟩, hka, him, hex, hs⟩
      rw [if_neg c2] at h
      by_cases c3 : looking_at chunk.toList 0 "packet" ≠ 0
      · rw [if_pos c3] at h
        rcases hp3 : (parsePacketAnalyzer zv chunk.toList).run with _ | x
        · rw [hp3] at h; exact absurd h (by simp)
        rw [hp3] at h
        rcases x with e | a
        · dsimp only at h
          simp only [Option.some.injEq, Prod.mk.injEq] at h
          rw [← h.2]
          exact ⟨rfl, ⟨[], by simp⟩, ⟨[], by simp⟩, ⟨[], by simp⟩, ⟨[], by simp⟩, ⟨[], by simp⟩, rfl⟩
        · dsimp only at h
          obtain ⟨he, hpa, hfa, ⟨t, hka⟩, him, hex, hs⟩ := ih _ _ _ _ _ h
          exact ⟨he, hpa, hfa, ⟨[a] ++ t, by simpa using hka⟩, him, hex, hs⟩
      rw [if_neg c3] at h
      by_cases c4 : looking_at chunk.toList 0 "on" ≠ 0
      · rw [if_pos c4] at h
        rcases hp4 : (parseEvent chunk.toList).run with _ | x
        · rw [hp4] at h; exact absurd h (by simp)
        rw [hp4] at h
        rcases x with e | ev
        · dsimp only at h
          simp only [Option.some.injEq, Prod.mk.injEq] at h
          rw [← h.2]
          exact storeExt_refl g
        · dsimp only at h
          exact ih _ _ _ _ _ h
      rw [if_neg c4] at h
      by_cases c5 : looking_at chunk.toList 0 "import" ≠ 0
      · rw [if_pos c5] at h
        rcases hp5 : (parseImportChunk chunk.toList).run with _ | x
        · rw [hp5] at h; exact absurd h (by simp)
        rw [hp5] at h
        rcases x with e | a
        · dsimp only at h
          simp only [Option.some.injEq, Prod.mk.injEq] at h
          rw [← h.2]
          exact ⟨rfl, ⟨[], by simp⟩, ⟨[], by simp⟩, ⟨[], by simp⟩, ⟨[], by simp⟩, ⟨[], by simp⟩, rfl⟩
        · dsimp only at h
          obtain ⟨he, hpa, hfa, hka, ⟨t, him⟩, hex, hs⟩ := ih _ _ _ _ _ h
          exact ⟨he, hpa, hfa, hka, ⟨[a] ++ t, by simpa using him⟩, hex, hs⟩
      rw [if_neg c5] at h
      by_cases c6 : looking_at chunk.toList 0 "export" ≠ 0
      · rw [if_pos c6] at h
        rcases hp6 : (parseExportChunk chunk.toList).run with _ | x
        · rw [hp6] at h; exact absurd h (by simp)
        rw [hp6] at h
        rcases x with e | a
        · dsimp only at h
          simp only [Option.some.injEq, Prod.mk.injEq] at h
          rw [← h.2]
          exact ⟨rfl, ⟨[], by simp⟩, ⟨[], by simp⟩, ⟨[], by simp⟩, ⟨[], by simp⟩, ⟨[], by simp⟩, rfl⟩
        · dsimp only at h
          obtain ⟨he, hpa, hfa, hka, him, ⟨t, hex⟩, hs⟩ := ih _ _ _ _ _ h
          exact ⟨he, hpa, hfa, hka, him, ⟨[a] ++ t, by simpa using hex⟩, hs⟩
      rw [if_neg c6] at h
      simp only [Option.some.injEq, Prod.mk.injEq] at h
      rw [← h.2]
      exact storeExt_refl g

/-- C9: whenever `loadEvtFile` aborts with `false` (a parse error caught
partway through the file), the event store is exactly unchanged — events
are buffered locally and appended only after the whole file parsed — while
the protocol-, file-, and packet-analyzer lists, the imports and the
exports keep everything added so far (store extended by earlier chunks of
the same file); the second conjunct is a concrete aborted run whose
partial store retains an analyzer from an earlier chunk but no event from
the event chunk that preceded the failing one. -/
theorem loadEvtFile_abort_events_atomic :
    (∀ (σ : Type) (pp : PP σ) (st : σ) (zv : Int) (fuel : Nat) (file : String)
        (lines : List String) (g g' : GlueState),
        loadEvtFile pp st zv fuel file lines g = some (false, g') →
        g'.events = g.events ∧
        (∃ t, g'.protocol_analyzers = g.protocol_analyzers ++ t) ∧
        (∃ t, g'.file_analyzers = g.file_analyzers ++ t) ∧
        (∃ t, g'.packet_analyzers = g.packet_analyzers ++ t) ∧
        (∃ t, g'.imports = g.imports ++ t) ∧
        (∃ t, g'.exports = g.exports ++ t) ∧
        g'.spicy_modules = g.spicy_modules) ∧
    loadEvtFile ppTriv () 50200 20 "f" linesAbort gEmpty = some (false, gAbortOut) := by
  constructor
  · intro σ pp st zv fuel file lines g g' h
    unfold loadEvtFile at h
    rcases hp : preprocessEvtFile pp st lines with e | out
    · rw [hp] at h
      dsimp only at h
      simp only [Option.some.injEq, Prod.mk.injEq] at h
      rw [← h.2]
      exact storeExt_refl g
    · rw [hp] at h
      dsimp only at h
      exact loadLoop_abort zv file _ _ _ _ _ _ h
  · exact rfl

/-- C9 witness: the abort theorem applied to the concrete aborted run:
events unchanged, module list unchanged. -/
theorem loadEvtFile_abort_events_atomic_witness :
    gAbortOut.events = gEmpty.events ∧ gAbortOut.spicy_modules = gEmpty.spicy_modules := by
  have h := loadEvtFile_abort_events_atomic.1 Unit ppTriv () 50200 20 "f" linesAbort gEmpty
    gAbortOut (by exact rfl)
  exact ⟨h.1, h.2.2.2.2.2.2⟩

theorem scan_go_ge (c : List Char) (p : List Char → Nat → Bool) :
    ∀ (k i : Nat), i ≤ scan_go c p k i := by
  intro k
  induction k with
  | zero => intro i; exact le_refl i
  | succ k ih =>
    intro i
    simp only [scan_go]
    split
    · exact le_trans (Nat.le_succ i) (ih (i + 1))
    · exact le_refl i

theorem scan_go_stop (c : List Char) (p : List Char → Nat → Bool) (k i : Nat)
    (h : ¬(i < c.length ∧ p c i = true)) : scan_go c p k i = i := by
  cases k with
  | zero => rfl
  | succ k => simp only [scan_go, if_neg h]

theorem scanWhile_stop (c : List Char) (p : List Char → Nat → Bool) (i : Nat)
    (h : ¬(i < c.length ∧ p c i = true)) : scanWhile c p i = i :=
  scan_go_stop c p c.length i h

theorem scanWhile_gt (c : List Char) (p : List Char → Nat → Bool) (i : Nat)
    (h1 : i < c.length) (h2 : p c i = true) : i + 1 ≤ scanWhile c p i := by
  unfold scanWhile
  rcases hn : c.length with _ | m
  · omega
  · simp only [scan_go, if_pos (And.intro h1 h2)]
    exact scan_go_ge c p m (i + 1)

theorem scanWhile_ge (c : List Char) (p : List Char → Nat → Bool) (i : Nat) :
    i ≤ scanWhile c p i :=
  scan_go_ge c p c.length i

theorem slice_self (c : List Char) (s : Nat) : slice c s s = [] := by
  simp [slice]

theorem slice_cons (c : List Char) (s j : Nat) (h1 : s < c.length) (h2 : s < j) :
    slice c s j = cget c s :: slice c (s + 1) j := by
  unfold slice cget
  rw [List.drop_eq_getElem_cons h1]
  rw [show j - s = (j - (s + 1)) + 1 by omega]
  rw [List.take_succ_cons]
  congr 1
  exact (List.getD_eq_getElem c '\x00' h1).symm

theorem scan_slice_all (c : List Char) (q : Char → Bool) :
    ∀ (k s : Nat), c.length - s ≤ k →
      ∀ ch ∈ slice c s (scan_go c (fun c j => q (cget c j)) k s), q ch = true := by
  intro k
  induction k with
  | zero =>
    intro s hs ch hm
    have : scan_go c (fun c j => q (cget c j)) 0 s = s := rfl
    rw [this, slice_self] at hm
    exact absurd hm (by simp)
  | succ k ih =>
    intro s hs ch hm
    by_cases hc : s < c.length ∧ q (cget c s) = true
    · simp only [scan_go, if_pos hc] at hm
      have hj : s + 1 ≤ scan_go c (fun c j => q (cget c j)) k (s + 1) := scan_go_ge c _ k (s + 1)
      rw [slice_cons c s _ hc.1 (by omega)] at hm
      rcases List.mem_cons.mp hm with h | h
      · subst h; exact hc.2
      · exact ih (s + 1) (by omega) ch h
    · simp only [scan_go, if_neg hc] at hm
      rw [slice_self] at hm
      exact absurd hm (by simp)

theorem scanWhile_slice_all (c : List Char) (q : Char → Bool) (s : Nat) :
    ∀ ch ∈ slice c s (scanWhile c (fun c j => q (cget c j)) s), q ch = true :=
  scan_slice_all c q c.length s (Nat.sub_le _ _)

theorem takeWhile_all (q : Char → Bool) :
    ∀ (l : List Char), (∀ a ∈ l, q a = true) → l.takeWhile q = l := by
  intro l
  induction l with
  | nil => intro _; rfl
  | cons a rest ih =>
    intro h
    rw [List.takeWhile_cons, if_pos (h a (by simp))]
    rw [ih (fun x hx => h x (by simp [hx]))]

theorem digit_ne_minus (ch : Char) (h : cIsDigit ch = true) : ch ≠ '-' := by
  intro he; subst he; exact absurd h (by decide)

theorem digit_ne_plus (ch : Char) (h : cIsDigit ch = true) : ch ≠ '+' := by
  intro he; subst he; exact absurd h (by decide)

theorem digit_in_bounds (c : List Char) (j : Nat) (h : cIsDigit (cget c j) = true) :
    j < c.length := by
  by_contra hc
  rw [cget, List.getD_eq_default _ _ (by omega)] at h
  exact absurd h (by decide)

theorem atoi_n_dec_error_msg (s : List Char) (e : String) (h : atoi_n_dec s = .error e) :
    e = "cannot decode number" := by
  unfold atoi_n_dec at h
  by_cases hie : (List.takeWhile (fun x => cIsDigit x)
      (if (s.head? == some '-') = true then List.drop 1 s else s)).isEmpty = true
  · rw [if_pos hie] at h
    simp only [Except.error.injEq] at h
    exact h.symm
  · rw [if_neg hie] at h
    exact absurd h (by simp)

theorem atoi_n_dec_digits (s : List Char) (h1 : s ≠ []) (h2 : ∀ a ∈ s, cIsDigit a = true) :
    atoi_n_dec s = .ok ((digitsVal s : Nat) : Int) := by
  unfold atoi_n_dec
  have hneg : (s.head? == some '-') = false := by
    rcases s with _ | ⟨a, rest⟩
    · exact absurd rfl h1
    · have := digit_ne_minus a (h2 a (by simp))
      simp [this]
  rw [hneg]
  simp only [Bool.false_eq_true, if_false]
  rw [takeWhile_all (fun x => cIsDigit x) s h2]
  rw [if_neg (by simp [h1])]

theorem atoi_n_dec_neg_digits (s : List Char) (h1 : s ≠ []) (h2 : ∀ a ∈ s, cIsDigit a = true) :
    atoi_n_dec ('-' :: s) = .ok (-((digitsVal s : Nat) : Int)) := by
  unfold atoi_n_dec
  have hneg : (('-' :: s).head? == some '-') = true := by simp
  rw [hneg]
  simp only [eq_self_iff_true, if_true]
  rw [show List.drop 1 ('-' :: s) = s from rfl]
  rw [takeWhile_all (fun x => cIsDigit x) s h2]
  rw [if_neg (by simp [h1])]



theorem extract_int_ok_digit (c : List Char) (i : Nat)
    (hd : cIsDigit (cget c (eat_spaces c i)) = true) :
    extract_int c i =
      .ok (((digitsVal (slice c (eat_spaces c i)
            (scanWhile c (fun c j => cIsDigit (cget c j)) (eat_spaces c i))) : Nat) : Int),
           scanWhile c (fun c j => cIsDigit (cget c j)) (eat_spaces c i)) := by
  have hlen : eat_spaces c i < c.length := digit_in_bounds c _ hd
  have hm : cget c (eat_spaces c i) ≠ '-' := digit_ne_minus _ hd
  have hp : cget c (eat_spaces c i) ≠ '+' := digit_ne_plus _ hd
  unfold extract_int
  dsimp only
  rw [if_pos hlen, if_neg hm, if_neg hp]
  have hgt := scanWhile_gt c (fun c j => cIsDigit (cget c j)) (eat_spaces c i) hlen hd
  rw [if_neg (show ¬(eat_spaces c i =
    scanWhile c (fun c j => cIsDigit (cget c j)) (eat_spaces c i)) by omega)]
  rw [atoi_n_dec_digits (slice c (eat_spaces c i)
      (scanWhile c (fun c j => cIsDigit (cget c j)) (eat_spaces c i)))
    (by rw [slice_cons c _ _ hlen (by omega)]; simp)
    (scanWhile_slice_all c cIsDigit (eat_spaces c i))]

theorem extract_int_ok_neg (c : List Char) (i : Nat)
    (hm : cget c (eat_spaces c i) = '-')
    (hd : cIsDigit (cget c (eat_spaces c i + 1)) = true) :
    extract_int c i =
      .ok (-((digitsVal (slice c (eat_spaces c i + 1)
            (scanWhile c (fun c j => cIsDigit (cget c j)) (eat_spaces c i + 1))) : Nat) : Int),
           scanWhile c (fun c j => cIsDigit (cget c j)) (eat_spaces c i + 1)) := by
  have hlen2 : eat_spaces c i + 1 < c.length := digit_in_bounds c _ hd
  have hlen : eat_spaces c i < c.length := by omega
  have hp : cget c (eat_spaces c i + 1) ≠ '+' := digit_ne_plus _ hd
  unfold extract_int
  dsimp only
  rw [if_pos hlen, if_pos hm, if_neg hp]
  have hgt := scanWhile_gt c (fun c j => cIsDigit (cget c j)) (eat_spaces c i + 1) hlen2 hd
  rw [if_neg (show ¬(eat_spaces c i =
    scanWhile c (fun c j => cIsDigit (cget c j)) (eat_spaces c i + 1)) by omega)]
  rw [slice_cons c (eat_spaces c i) _ hlen (by omega), hm]
  rw [atoi_n_dec_neg_digits (slice c (eat_spaces c i + 1)
      (scanWhile c (fun c j => cIsDigit (cget c j)) (eat_spaces c i + 1)))
    (by rw [slice_cons c _ _ hlen2 (by omega)]; simp)
    (scanWhile_slice_all c cIsDigit (eat_spaces c i + 1))]

theorem extract_int_err_iff (c : List Char) (i : Nat) :
    extract_int c i = .error "expected integer" ↔
      (c.length ≤ eat_spaces c i ∨
       (cget c (eat_spaces c i) ≠ '-' ∧ cget c (eat_spaces c i) ≠ '+' ∧
        cIsDigit (cget c (eat_spaces c i)) = false)) := by
  by_cases hlen : eat_spaces c i < c.length
  · by_cases hm : cget c (eat_spaces c i) = '-'
    · apply iff_of_false
      · unfold extract_int
        dsimp only
        rw [if_pos hlen, if_pos hm]
        have hj1ge : eat_spaces c i + 1 ≤
            (if cget c (eat_spaces c i + 1) = '+' then eat_spaces c i + 1 + 1
             else eat_spaces c i + 1) := by split <;> omega
        have hge := scanWhile_ge c (fun c j => cIsDigit (cget c j))
          (if cget c (eat_spaces c i + 1) = '+' then eat_spaces c i + 1 + 1
           else eat_spaces c i + 1)
        rw [if_neg (show ¬(eat_spaces c i = scanWhile c (fun c j => cIsDigit (cget c j))
          (if cget c (eat_spaces c i + 1) = '+' then eat_spaces c i + 1 + 1
           else eat_spaces c i + 1)) by omega)]
        intro hcon
        rcases ha : atoi_n_dec (slice c (eat_spaces c i)
            (scanWhile c (fun c j => cIsDigit (cget c j))
              (if cget c (eat_spaces c i + 1) = '+' then eat_spaces c i + 1 + 1
               else eat_spaces c i + 1))) with e | v
        · rw [ha] at hcon
          simp only [Except.error.injEq] at hcon
          rw [atoi_n_dec_error_msg _ _ ha] at hcon
          exact absurd hcon (by decide)
        · rw [ha] at hcon
          exact absurd hcon (by simp)
      · rintro (hc | ⟨hc, _, _⟩)
        · omega
        · exact hc hm
    · by_cases hp : cget c (eat_spaces c i) = '+'
      · apply iff_of_false
        · unfold extract_int
          dsimp only
          rw [if_pos hlen, if_neg hm, if_pos hp]
          have hge := scanWhile_ge c (fun c j => cIsDigit (cget c j)) (eat_spaces c i + 1)
          rw [if_neg (show ¬(eat_spaces c i = scanWhile c (fun c j => cIsDigit (cget c j))
            (eat_spaces c i + 1)) by omega)]
          intro hcon
          rcases ha : atoi_n_dec (slice c (eat_spaces c i)
              (scanWhile c (fun c j => cIsDigit (cget c j)) (eat_spaces c i + 1))) with e | v
          · rw [ha] at hcon
            simp only [Except.error.injEq] at hcon
            rw [atoi_n_dec_error_msg _ _ ha] at hcon
            exact absurd hcon (by decide)
          · rw [ha] at hcon
            exact absurd hcon (by simp)
        · rintro (hc | ⟨_, hc, _⟩)
          · omega
          · exact hc hp
      · by_cases hd : cIsDigit (cget c (eat_spaces c i)) = true
        · apply iff_of_false
          · rw [extract_int_ok_digit c i hd]
            simp
          · rintro (hc | ⟨_, _, hc⟩)
            · omega
            · rw [hd] at hc
              exact absurd hc (by decide)
        · apply iff_of_true
          · unfold extract_int
            dsimp only
            rw [if_pos hlen, if_neg hm, if_neg hp]
            rw [scanWhile_stop c (fun c j => cIsDigit (cget c j)) (eat_spaces c i)
              (by intro hcc; exact hd hcc.2)]
            rw [if_pos rfl]
          · exact Or.inr ⟨hm, hp, by simpa using hd⟩
  · apply iff_of_true
    · unfold extract_int
      dsimp only
      rw [if_neg hlen]
      rw [scanWhile_stop c (fun c j => cIsDigit (cget c j)) (eat_spaces c i)
        (by intro hcc; exact hlen hcc.1)]
      rw [if_pos rfl]
    · exact Or.inl (by omega)



/-- C8 (amended): `extract_int` raises the parse error "expected integer"
exactly when, after skipping whitespace, the cursor is at the end of the
chunk or at a character that is none of `-`, `+`, or a decimal digit; when
the cursor is at a digit run, or at a single `-` followed by a digit run,
it succeeds with that signed decimal integer and advances the cursor past
the token. (Tokens the sign scan admits but that are not of that shape — a
lone sign, `-` then `+`, or a `+`-prefixed token — are passed on to the
external number conversion and rejected there with a different error; see
the counterexample.) -/
theorem extract_int_spec (c : List Char) (i : Nat) :
    (extract_int c i = .error "expected integer" ↔
      (c.length ≤ eat_spaces c i ∨
       (cget c (eat_spaces c i) ≠ '-' ∧ cget c (eat_spaces c i) ≠ '+' ∧
        cIsDigit (cget c (eat_spaces c i)) = false))) ∧
    (cIsDigit (cget c (eat_spaces c i)) = true →
      extract_int c i =
        .ok (((digitsVal (slice c (eat_spaces c i)
              (scanWhile c (fun c j => cIsDigit (cget c j)) (eat_spaces c i))) : Nat) : Int),
             scanWhile c (fun c j => cIsDigit (cget c j)) (eat_spaces c i))) ∧
    (cget c (eat_spaces c i) = '-' →
      cIsDigit (cget c (eat_spaces c i + 1)) = true →
      extract_int c i =
        .ok (-((digitsVal (slice c (eat_spaces c i + 1)
              (scanWhile c (fun c j => cIsDigit (cget c j)) (eat_spaces c i + 1))) : Nat) : Int),
             scanWhile c (fun c j => cIsDigit (cget c j)) (eat_spaces c i + 1))) :=
  ⟨extract_int_err_iff c i, extract_int_ok_digit c i, extract_int_ok_neg c i⟩

/-- C8 counterexample: on the chunk `-` the claimed success condition
fails (no digit), yet `extract_int` does not throw the parse error
"expected integer": the lone `-` passes the `*i == j` scan check (the scan
consumed the sign) and the failure comes from the number conversion with a
different message. -/
theorem extract_int_lone_minus :
    extract_int ("-".toList) 0 = .error "cannot decode number" ∧
    (Except.error "cannot decode number" : Except String (Int × Nat)) ≠
      .error "expected integer" := by
  refine ⟨by exact rfl, ?_⟩
  intro h
  simp only [Except.error.injEq] at h
  exact absurd h (by decide)

/-- C8 witness: the amended theorem applied at ` -42 x` (signed success)
and at `xy` (the "expected integer" error). -/
theorem extract_int_spec_witness :
    extract_int ("  -42 x".toList) 0 = .ok (-42, 5) ∧
    extract_int ("xy".toList) 0 = .error "expected integer" := by
  constructor
  · have h := (extract_int_spec ("  -42 x".toList) 0).2.2 (by decide) (by decide)
    exact h.trans (by exact rfl)
  · exact (extract_int_spec ("xy".toList) 0).1.mpr (Or.inr ⟨by decide, by decide, by decide⟩)

end SpicyGlue
